import Mathlib

/-!
Verification of the Provider Adapter & Normalization Layer of the
parse-benchmark repository.

The development shallowly embeds the relevant TypeScript functions of
`src/app/api/parse/route.ts`, `src/lib/providers.ts`, `src/lib/types.ts`
and the orchestration code of the page component.  JavaScript numbers are
modelled as exact rationals (`ℚ`), strings as Lean `String`, optional /
possibly-`undefined` fields as `Option`, and JavaScript truthiness of
strings and numbers through explicit helpers (`jsOrElse`, `jsOrOne`,
`truthyStr`, `truthyQ`).  Fallible external calls (PDF rebuilding through
pdf-lib, blob storage uploads, network fetches) are modelled as explicit
`Option`-valued parameters or constructors.
-/

/-! ### Character-list string primitives

The embedding uses character-list implementations of the string
operations of the source (prefix/suffix tests, lower-casing, substring
containment, digit parsing) so that all definitions evaluate on concrete
inputs. -/

/-- Lower-casing, character by character (`String.prototype.toLowerCase`). -/
def strToLower (s : String) : String := ⟨s.data.map Char.toLower⟩

/-- Prefix test on character lists. -/
def charListIsPre : List Char → List Char → Bool
  | [], _ => true
  | _ :: _, [] => false
  | a :: as, b :: bs => a = b && charListIsPre as bs

/-- Whether `p` is a prefix of `s` (`String.prototype.startsWith p`). -/
def strIsPre (p s : String) : Bool := charListIsPre p.data s.data

/-- Whether `s` ends with `suf` (`String.prototype.endsWith suf`). -/
def strEndsWith (s suf : String) : Bool := charListIsPre suf.data.reverse s.data.reverse

/-- Whether `sub` occurs in `l`. -/
def listContainsSub (sub : List Char) (l : List Char) : Bool :=
  match l with
  | [] => charListIsPre sub []
  | c :: rest => charListIsPre sub (c :: rest) || listContainsSub sub rest

/-- Whether `s` contains `sub` as a substring. -/
def strContains (s sub : String) : Bool := listContainsSub sub.data s.data

/-- The part of `s` after its last `/` (JavaScript
`s.split('/').pop()`, which is empty exactly when `s` ends in `/`). -/
def lastComponent (s : String) : String :=
  ⟨((s.data.reverse).takeWhile (fun c => c ≠ '/')).reverse⟩

/-- Decimal digit test. -/
def charIsDigit (c : Char) : Bool := "0123456789".data.contains c

/-- Parse a non-empty all-digit character list as a natural number
(`parseInt` on the `\d+` capture of the source's regex). -/
def charDigitsToNat? (l : List Char) : Option ℕ :=
  if l ≠ [] ∧ l.all charIsDigit then
    some (l.foldl (fun acc c => acc * 10 + (c.toNat - 48)) 0)
  else none

/-- JavaScript `a || b` for an optional string `a`: the empty string is
falsy, so it falls through to the default. -/
def jsOrElse (a : Option String) (b : String) : String :=
  match a with
  | some s => if s = "" then b else s
  | none => b

/-- JavaScript `a || 1` for an optional number `a`: `0` (and absence) is
falsy and becomes `1`. -/
def jsOrOne (a : Option ℚ) : ℚ :=
  match a with
  | some w => if w = 0 then 1 else w
  | none => 1

/-- JavaScript truthiness filter for an optional string: `undefined` and
`""` are falsy. -/
def truthyStr (a : Option String) : Option String :=
  match a with
  | some s => if s = "" then none else some s
  | none => none

/-- JavaScript truthiness filter for an optional number: `undefined` and
`0` are falsy. -/
def truthyQ (a : Option ℚ) : Option ℚ :=
  match a with
  | some w => if w = 0 then none else some w
  | none => none

/-- JavaScript `a || b` on two optional strings, returning a truthy result
if either is truthy (`table.html || table.content` in the source). -/
def jsOrTruthy (a b : Option String) : Option String :=
  match truthyStr a with
  | some s => some s
  | none => truthyStr b

/-! ## Canonical data model (`src/lib/types.ts`) -/

/-- Bounding box with normalized coordinates (0-1 fractions of page
dimensions); `BBox` in `src/lib/types.ts`. -/
structure BBox where
  x : ℚ
  y : ℚ
  w : ℚ
  h : ℚ
deriving DecidableEq, Repr

/-- The closed set of canonical block types of `ParseBlock.type`. -/
inductive BlockType where
  | text
  | table
  | figure
  | title
  | list
  | header
  | footer
  | code
  | equation
  | unknown
deriving DecidableEq, Repr

/-- Individual block from document parsing; `ParseBlock` in
`src/lib/types.ts`. -/
structure ParseBlock where
  id : String
  type : BlockType
  content : String
  bbox : Option BBox
  confidence : Option ℚ
  pageIndex : ℤ
deriving DecidableEq, Repr

/-- Page dimensions; `PageDimensions` in `src/lib/types.ts`. -/
structure PageDimensions where
  width : ℚ
  height : ℚ
deriving DecidableEq, Repr

/-- The `json` member of `ParseOutputs`. -/
structure ParseJsonOutput where
  blocks : List ParseBlock
  dimensions : Option (List PageDimensions)
deriving DecidableEq, Repr

/-- Rich outputs from OCR providers; `ParseOutputs` in `src/lib/types.ts`. -/
structure ParseOutputs where
  markdown : String
  html : Option String
  json : Option ParseJsonOutput
deriving DecidableEq, Repr

/-- Stats from parsing; `ParseStats` in `src/lib/types.ts` (`time`, `cost`
and `tokens` are numbers, `pages` is optional). -/
structure ParseStats where
  time : ℚ
  cost : ℚ
  tokens : ℕ
  pages : Option ℕ
deriving DecidableEq, Repr

/-! ## Pricing (`src/lib/providers.ts`) -/

/-- Pricing per 1M tokens; the `PRICING` record of `src/lib/providers.ts`.
A key that is absent from the record is sent to `none`. -/
def PRICING (key : String) : Option (ℚ × ℚ) :=
  if key = "gpt-4o" then some (5/2, 10)
  else if key = "gpt-4o-mini" then some (3/20, 3/5)
  else if key = "claude-sonnet-4" then some (3, 15)
  else if key = "claude-haiku-35" then some (4/5, 4)
  else if key = "gemini-2-flash" then some (3/40, 3/10)
  else if key = "gemini-25-pro" then some (5/4, 10)
  else none

/-- Per-page pricing for dedicated OCR services; the `OCR_PAGE_PRICING`
record of `src/lib/providers.ts`. -/
def OCR_PAGE_PRICING (key : String) : Option ℚ :=
  if key = "cost-effective" then some (3/1000)
  else if key = "agentic" then some (1/100)
  else if key = "agentic-plus" then some (3/100)
  else if key = "mistral-ocr-latest" then some (1/1000)
  else if key = "fast" then some (5/1000)
  else if key = "balanced" then some (1/100)
  else if key = "accurate" then some (1/50)
  else none

/-- The `calculateCost` of `src/lib/providers.ts`: per-token cost for vision
LLM providers; an unknown provider id returns 0. -/
def calculateCost (providerId : String) (inputTokens outputTokens : ℕ) : ℚ :=
  match PRICING providerId with
  | none => 0
  | some pricing =>
      ((inputTokens : ℚ) / 1000000) * pricing.1 + ((outputTokens : ℚ) / 1000000) * pricing.2

/-- The `calculatePageCost` of `src/lib/providers.ts`: per-page cost for OCR
services; an unknown model id falls back to the `0.001` per-page rate. -/
def calculatePageCost (modelId : String) (pages : ℕ) : ℚ :=
  let pricePerPage := (OCR_PAGE_PRICING modelId).getD (1/1000)
  (pages : ℚ) * pricePerPage

/-! ## LlamaParse types and block normalizer (`route.ts`) -/

/-- One entry of the `children` array of a LlamaParse item (only `type` and
`value`; unused by the normalizer). -/
structure LlamaParseChildItem where
  type : String
  value : Option String
deriving DecidableEq, Repr

/-- The `LlamaParseLayoutItem` of `route.ts`. -/
structure LlamaParseLayoutItem where
  type : String
  label : Option String
  bbox : BBox
  confidence : Option ℚ
  page_number : Option ℤ
  image_name : Option String
  isLikelyNoise : Option Bool
deriving DecidableEq, Repr

/-- One entry of the `items` array of a `LlamaParseJsonPage`. -/
structure LlamaParseItem where
  type : String
  value : Option String
  lvl : Option ℤ
  bBox : Option BBox
  children : Option (List LlamaParseChildItem)
deriving DecidableEq, Repr

/-- The `LlamaParseJsonPage` of `route.ts`. -/
structure LlamaParseJsonPage where
  page : ℤ
  text : Option String
  md : Option String
  width : Option ℚ
  height : Option ℚ
  items : Option (List LlamaParseItem)
  layout : Option (List LlamaParseLayoutItem)
deriving DecidableEq, Repr

/-- The `LlamaParseJsonResult` of `route.ts`. -/
structure LlamaParseJsonResult where
  pages : List LlamaParseJsonPage
deriving DecidableEq, Repr

/-- The `mapLlamaParseType` of `route.ts`: closed lookup table from a
lower-cased native label to the canonical block type. -/
def mapLlamaParseType (t : String) : BlockType :=
  let s := strToLower t
  if s = "text" then .text
  else if s = "table" then .table
  else if s = "figure" then .figure
  else if s = "title" then .title
  else if s = "heading" then .title
  else if s = "list" then .list
  else if s = "list_item" then .list
  else if s = "header" then .header
  else if s = "footer" then .footer
  else if s = "code" then .code
  else if s = "equation" then .equation
  else .unknown

/-- The blocks contributed by one LlamaParse page: the layout items (noise
entries skipped, bbox passed through unchanged because it is already in
0-1 fraction format) followed by the content items (whose `bBox` is divided
by the page dimensions).  Ids are assigned afterwards. -/
def llamaPageBlocks (page : LlamaParseJsonPage) : List ParseBlock :=
  let pageWidth := jsOrOne page.width
  let pageHeight := jsOrOne page.height
  let layoutBlocks : List ParseBlock :=
    match page.layout with
    | some l =>
        if l.length > 0 then
          (l.filter (fun item => item.isLikelyNoise ≠ some true)).map (fun item =>
            { id := ""
              type := mapLlamaParseType (jsOrElse item.label item.type)
              content := ""
              bbox := some item.bbox
              confidence := item.confidence
              pageIndex := page.page - 1 })
        else []
    | none => []
  let itemBlocks : List ParseBlock :=
    match page.items with
    | some its =>
        if its.length > 0 then
          its.map (fun item =>
            let bbox : Option BBox :=
              match item.bBox with
              | some bb =>
                  some { x := bb.x / pageWidth, y := bb.y / pageHeight
                         w := bb.w / pageWidth, h := bb.h / pageHeight }
              | none => none
            { id := ""
              type := mapLlamaParseType item.type
              content := jsOrElse item.value ""
              bbox := bbox
              confidence := none
              pageIndex := page.page - 1 })
        else []
    | none => []
  layoutBlocks ++ itemBlocks

/-- Assign the sequential counter-based ids (`prefix-0`, `prefix-1`, ...)
that the source produces with `blockId++`, in emission order. -/
def assignIds (pre : String) (bs : List ParseBlock) : List ParseBlock :=
  bs.enum.map (fun p => { p.2 with id := pre ++ toString p.1 })

/-- The `normalizeLlamaParseBlocks` of `route.ts`; a `null` JSON result (the
failed structured-JSON fetch) yields no blocks. -/
def normalizeLlamaParseBlocks (jsonResult : Option LlamaParseJsonResult) : List ParseBlock :=
  match jsonResult with
  | none => []
  | some r => assignIds "llama-" ((r.pages.map llamaPageBlocks).flatten)

/-- The record returned by the success branch of `parseLlamaParse`: content
is the fetched markdown, `pages` defaults to 1, and the structured output is
present only when normalization produced at least one block. -/
def parseLlamaParseSuccess (markdown : String) (numPages : Option ℕ)
    (jsonResult : Option LlamaParseJsonResult) :
    String × ℕ × ParseOutputs :=
  let blocks := normalizeLlamaParseBlocks jsonResult
  (markdown, numPages.getD 1,
    { markdown := markdown
      html := none
      json := if blocks.length > 0 then some { blocks := blocks, dimensions := none } else none })

/-! ## Mistral OCR types and block normalizer (`route.ts`) -/

/-- The `MistralOCRImage` of `route.ts`. -/
structure MistralOCRImage where
  id : String
  image_base64 : Option String
  top_left_x : Option ℚ
  top_left_y : Option ℚ
  bottom_right_x : Option ℚ
  bottom_right_y : Option ℚ
deriving DecidableEq, Repr

/-- The `MistralOCRTable` of `route.ts`. -/
structure MistralOCRTable where
  id : String
  html : Option String
  content : Option String
  markdown : Option String
  format : Option String
  top_left_x : Option ℚ
  top_left_y : Option ℚ
  bottom_right_x : Option ℚ
  bottom_right_y : Option ℚ
deriving DecidableEq, Repr

/-- The `MistralOCRPage` of `route.ts`. -/
structure MistralOCRPage where
  index : ℤ
  markdown : String
  images : Option (List MistralOCRImage)
  tables : Option (List MistralOCRTable)
  dimensions : Option PageDimensions
deriving DecidableEq, Repr

/-- The `MistralOCRResponse` of `route.ts` (with `usage_info.pages_processed`
flattened into an optional field). -/
structure MistralOCRResponse where
  pages : List MistralOCRPage
  model : String
  pages_processed : Option ℕ
deriving DecidableEq, Repr

/-- The bbox of a Mistral image block: present only when the page has
dimensions and all four pixel corners are defined; corners are divided by
the page dimensions. -/
def mistralImageBbox (dims : Option PageDimensions) (img : MistralOCRImage) : Option BBox :=
  match dims, img.top_left_x, img.top_left_y, img.bottom_right_x, img.bottom_right_y with
  | some d, some tlx, some tly, some brx, some bry =>
      some { x := tlx / d.width, y := tly / d.height
             w := (brx - tlx) / d.width, h := (bry - tly) / d.height }
  | _, _, _, _, _ => none

/-- The bbox of a Mistral table block, computed as for images. -/
def mistralTableBbox (dims : Option PageDimensions) (t : MistralOCRTable) : Option BBox :=
  match dims, t.top_left_x, t.top_left_y, t.bottom_right_x, t.bottom_right_y with
  | some d, some tlx, some tly, some brx, some bry =>
      some { x := tlx / d.width, y := tly / d.height
             w := (brx - tlx) / d.width, h := (bry - tly) / d.height }
  | _, _, _, _, _ => none

/-- The blocks contributed by one page in `normalizeMistralBlocks`: a text
block for non-empty page markdown (no bbox), then figure blocks for images,
then table blocks.  Ids are assigned afterwards. -/
def mistralPageBlocks (page : MistralOCRPage) : List ParseBlock :=
  let dims := page.dimensions
  let textBlocks : List ParseBlock :=
    if page.markdown ≠ "" then
      [{ id := "", type := .text, content := page.markdown, bbox := none,
         confidence := none, pageIndex := page.index }]
    else []
  let imageBlocks : List ParseBlock :=
    match page.images with
    | some imgs =>
        if imgs.length > 0 then
          imgs.map (fun img =>
            { id := "", type := .figure, content := img.id,
              bbox := mistralImageBbox dims img, confidence := none,
              pageIndex := page.index })
        else []
    | none => []
  let tableBlocks : List ParseBlock :=
    match page.tables with
    | some tbls =>
        if tbls.length > 0 then
          tbls.map (fun t =>
            { id := "", type := .table,
              content := jsOrElse t.html (jsOrElse t.content (jsOrElse t.markdown t.id)),
              bbox := mistralTableBbox dims t, confidence := none,
              pageIndex := page.index })
        else []
    | none => []
  textBlocks ++ imageBlocks ++ tableBlocks

/-- Id prefixes used by `normalizeMistralBlocks` (`mistral-text-`,
`mistral-img-`, `mistral-table-`), keyed by the emitted block type. -/
def mistralIdOfType (t : BlockType) : String :=
  match t with
  | .figure => "mistral-img-"
  | .table => "mistral-table-"
  | _ => "mistral-text-"

/-- The `normalizeMistralBlocks` of `route.ts`. -/
def normalizeMistralBlocks (data : MistralOCRResponse) : List ParseBlock :=
  let blocks := (data.pages.map mistralPageBlocks).flatten
  blocks.enum.map (fun p => { p.2 with id := mistralIdOfType p.2.type ++ toString p.1 })

/-! ## Markdown as a token stream (asset inlining) -/

/-- A markdown fragment, tokenized: plain text, image references
`![alt](target)` and link references `[label](target)`.  Regex rewriting
of the source becomes per-token rewriting. -/
inductive MdToken where
  | text (s : String)
  | image (alt : String) (target : String)
  | link (label : String) (target : String)
deriving DecidableEq, Repr

/-- The rewriting performed for one Mistral image by
`processMistralMarkdown`: references `![alt](id...)` (the source pattern
accepts any target that starts with the image id) are replaced by the
uploaded/inline URL when base64 bytes exist, and by the `[Image: alt]`
placeholder otherwise.  `blobStore` models `uploadImageToBlob`, which
returns `none` when no storage is configured or the upload fails. -/
def mistralImageStep (blobStore : String → Option String) (img : MistralOCRImage)
    (tok : MdToken) : MdToken :=
  match img.image_base64 with
  | some b64 =>
      let imageUrl :=
        match blobStore b64 with
        | some u => u
        | none => "data:image/jpeg;base64," ++ b64
      match tok with
      | .image alt t => if strIsPre img.id t then .image alt imageUrl else tok
      | _ => tok
  | none =>
      match tok with
      | .image alt t => if strIsPre img.id t then .text ("[Image: " ++ alt ++ "]") else tok
      | _ => tok

/-- The image-embedding pass of `processMistralMarkdown`: each image of the
response is applied, in order, to the whole token stream. -/
def mistralImagePass (blobStore : String → Option String) (images : List MistralOCRImage)
    (toks : List MdToken) : List MdToken :=
  images.foldl (fun ts img => ts.map (mistralImageStep blobStore img)) toks

/-- Whether `tok` is a link token whose target satisfies `p`. -/
def linkTargetMatches (p : String → Bool) (tok : MdToken) : Bool :=
  match tok with
  | .link _ tgt => p tgt
  | _ => false

/-- The table-embedding step of `processMistralMarkdown` for table number
`i`: the four candidate reference patterns are tried in order and the first
pattern that matches anywhere is applied to the whole stream (matching the
source's replace-then-break loop); matched link references are replaced by
the table HTML. -/
def mistralTableStep (i : ℕ) (t : MistralOCRTable) (toks : List MdToken) : List MdToken :=
  match jsOrTruthy t.html t.content with
  | none => toks
  | some tableHtml =>
      match List.find? (fun p => toks.any (linkTargetMatches p))
          ([fun tgt => tgt = t.id,
            fun tgt => tgt = t.id ++ ".html",
            fun tgt => tgt = "tbl-" ++ toString i ++ ".html",
            fun tgt => tgt = "tbl-" ++ toString i] : List (String → Bool)) with
      | none => toks
      | some p =>
          toks.map (fun tok =>
            match tok with
            | .link lab tgt =>
                if p tgt then .text ("\n\n" ++ tableHtml ++ "\n\n") else .link lab tgt
            | _ => tok)

/-- The table-embedding pass of `processMistralMarkdown`. -/
def mistralTablePass (tables : List MistralOCRTable) (toks : List MdToken) : List MdToken :=
  tables.enum.foldl (fun ts p => mistralTableStep p.1 p.2 ts) toks

/-- Recognize a target of the exact shape `tbl-<digits>.html` and extract
the table index, mirroring the residual regex of `processMistralMarkdown`. -/
def tblIndexOf (tgt : String) : Option ℕ :=
  if strIsPre "tbl-" tgt ∧ strEndsWith tgt ".html" then
    let mid := (tgt.data.drop 4).take ((tgt.data.drop 4).length - 5)
    charDigitsToNat? mid
  else none

/-- The residual table pass of `processMistralMarkdown`: any remaining
`[label](tbl-N.html)` reference is replaced by the table HTML when table N
exists and has HTML, and by the `[Table: label]` placeholder otherwise. -/
def mistralResidualStep (tables : List MistralOCRTable) (tok : MdToken) : MdToken :=
  match tok with
  | .link lab tgt =>
      match tblIndexOf tgt with
      | none => tok
      | some idx =>
          match tables.get? idx with
          | some t =>
              match jsOrTruthy t.html t.content with
              | some tableHtml => .text ("\n\n" ++ tableHtml ++ "\n\n")
              | none => .text ("[Table: " ++ lab ++ "]")
          | none => .text ("[Table: " ++ lab ++ "]")
  | _ => tok

/-- The `processMistralMarkdown` of `route.ts`, over the token model: the image
pass, then the per-table pass, then the residual table pass. -/
def processMistralMarkdown (blobStore : String → Option String) (toks : List MdToken)
    (images : List MistralOCRImage) (tables : List MistralOCRTable) : List MdToken :=
  (mistralTablePass tables (mistralImagePass blobStore images toks)).map
    (mistralResidualStep tables)

/-! ## Datalab Marker types and block normalizer (`route.ts`) -/

/-- The `Math.min` over a list of rationals (applied in the source to a
polygon's coordinates, always with at least 4 entries). -/
def listMin : List ℚ → ℚ
  | [] => 0
  | x :: xs => xs.foldl min x

/-- The `Math.max` over a list of rationals. -/
def listMax : List ℚ → ℚ
  | [] => 0
  | x :: xs => xs.foldl max x

/-- The `DatalabMarkerBlock` of `route.ts`: a possibly nested block.  `bbox` is
the `[x1, y1, x2, y2]` array, `polygon` a list of `[x, y]` points, and
`block_type` uses `""` for an absent (falsy) type. -/
inductive DatalabMarkerBlock where
  | mk (id : Option String) (block_type : String) (text : Option String)
      (html : Option String) (polygon : Option (List (ℚ × ℚ)))
      (bbox : Option (ℚ × ℚ × ℚ × ℚ)) (page_idx : Option ℤ)
      (children : Option (List DatalabMarkerBlock))

/-- The `block_type` field of a Marker block. -/
def DatalabMarkerBlock.blockType : DatalabMarkerBlock → String
  | .mk _ bt _ _ _ _ _ _ => bt

/-- The `bbox` field of a Marker block. -/
def DatalabMarkerBlock.bboxField : DatalabMarkerBlock → Option (ℚ × ℚ × ℚ × ℚ)
  | .mk _ _ _ _ _ bx _ _ => bx

/-- The `polygon` field of a Marker block. -/
def DatalabMarkerBlock.polygonField : DatalabMarkerBlock → Option (List (ℚ × ℚ))
  | .mk _ _ _ _ poly _ _ _ => poly

/-- The `mapMarkerBlockType` of `route.ts`. -/
def mapMarkerBlockType (blockType : String) : BlockType :=
  if blockType = "Text" then .text
  else if blockType = "TextInlineMath" then .text
  else if blockType = "Title" then .title
  else if blockType = "SectionHeader" then .title
  else if blockType = "Table" then .table
  else if blockType = "TableCell" then .table
  else if blockType = "Figure" then .figure
  else if blockType = "FigureCaption" then .figure
  else if blockType = "ListGroup" then .list
  else if blockType = "ListItem" then .list
  else if blockType = "Code" then .code
  else if blockType = "Equation" then .equation
  else if blockType = "PageHeader" then .header
  else if blockType = "PageFooter" then .footer
  else .unknown

/-- The bbox computed by `processBlock` inside `normalizeMarkerBlocks`:
from the polygon (axis-aligned min/max over the points, then divided by the
page dimensions) when it has at least 4 points, else from the `[x1,y1,x2,y2]`
bbox array, else absent. -/
def markerArrayBbox (pageWidth pageHeight : ℚ) :
    Option (ℚ × ℚ × ℚ × ℚ) → Option BBox
  | some q =>
      some { x := q.1 / pageWidth, y := q.2.1 / pageHeight
             w := (q.2.2.1 - q.1) / pageWidth, h := (q.2.2.2 - q.2.1) / pageHeight }
  | none => none

/-- The bbox emitted for a polygon with at least 4 points: axis-aligned
min/max over the points, divided by the page dimensions. -/
def markerPolyBbox (pageWidth pageHeight : ℚ) (pts : List (ℚ × ℚ)) : BBox :=
  { x := listMin (pts.map Prod.fst) / pageWidth
    y := listMin (pts.map Prod.snd) / pageHeight
    w := (listMax (pts.map Prod.fst) - listMin (pts.map Prod.fst)) / pageWidth
    h := (listMax (pts.map Prod.snd) - listMin (pts.map Prod.snd)) / pageHeight }

/-- Dispatch between the polygon and bbox-array sources. -/
def markerBlockBbox (pageWidth pageHeight : ℚ) (poly : Option (List (ℚ × ℚ)))
    (bx : Option (ℚ × ℚ × ℚ × ℚ)) : Option BBox :=
  match poly with
  | some pts =>
      if pts.length ≥ 4 then some (markerPolyBbox pageWidth pageHeight pts)
      else markerArrayBbox pageWidth pageHeight bx
  | none => markerArrayBbox pageWidth pageHeight bx

/-- The block emitted for one node by `processBlock` (empty when the node
has no truthy `block_type`); children are handled by the recursion below. -/
def markerSelfBlocks (pageWidth pageHeight : ℚ) : DatalabMarkerBlock → List ParseBlock
  | .mk _ bt txt htm poly bx pidx _ =>
      if bt ≠ "" then
        [{ id := ""
           type := mapMarkerBlockType bt
           content := jsOrElse txt (jsOrElse htm "")
           bbox := markerBlockBbox pageWidth pageHeight poly bx
           confidence := none
           pageIndex := pidx.getD 0 }]
      else []

mutual
/-- Depth-first flattening of one Marker block (`processBlock` of
`normalizeMarkerBlocks`): the node's own block, then its children. -/
def markerBlockToBlocks (pageWidth pageHeight : ℚ) : DatalabMarkerBlock → List ParseBlock
  | .mk id bt txt htm poly bx pidx ch =>
      markerSelfBlocks pageWidth pageHeight (.mk id bt txt htm poly bx pidx ch) ++
        markerChildrenToBlocks pageWidth pageHeight ch
/-- Flattening of an optional children array. -/
def markerChildrenToBlocks (pageWidth pageHeight : ℚ) :
    Option (List DatalabMarkerBlock) → List ParseBlock
  | none => []
  | some l => markerBlockListToBlocks pageWidth pageHeight l
/-- Flattening of a block list. -/
def markerBlockListToBlocks (pageWidth pageHeight : ℚ) :
    List DatalabMarkerBlock → List ParseBlock
  | [] => []
  | b :: bs =>
      markerBlockToBlocks pageWidth pageHeight b ++
        markerBlockListToBlocks pageWidth pageHeight bs
end

mutual
/-- One Marker block together with all of its descendants, in DFS order. -/
def markerDescendants : DatalabMarkerBlock → List DatalabMarkerBlock
  | .mk id bt txt htm poly bx pidx ch =>
      .mk id bt txt htm poly bx pidx ch :: markerDescendantsOfChildren ch
/-- Descendants of an optional children array. -/
def markerDescendantsOfChildren : Option (List DatalabMarkerBlock) → List DatalabMarkerBlock
  | none => []
  | some l => markerDescendantsOfList l
/-- Descendants of a block list. -/
def markerDescendantsOfList : List DatalabMarkerBlock → List DatalabMarkerBlock
  | [] => []
  | b :: bs => markerDescendants b ++ markerDescendantsOfList bs
end

/-- The `DatalabMarkerJsonOutput` / the `json` field of a Marker result: either
an array of blocks or an object carrying an optional children array, an
optional `block_type` (making the object itself a block), the page-level
`[x1,y1,x2,y2]` bbox, and the remaining block fields used when the object is
processed as a single block. -/
inductive DatalabMarkerJson where
  | arr (blocks : List DatalabMarkerBlock)
  | obj (children : Option (List DatalabMarkerBlock)) (block_type : Option String)
      (bbox : Option (ℚ × ℚ × ℚ × ℚ)) (text : Option String) (html : Option String)
      (polygon : Option (List (ℚ × ℚ))) (page_idx : Option ℤ)

/-- The `normalizeMarkerBlocks` of `route.ts`: dispatch on the three possible
shapes of the JSON payload, flatten depth-first, then assign `marker-N`
ids in emission order. -/
def normalizeMarkerBlocks (jsonData : Option DatalabMarkerJson)
    (pageWidth pageHeight : ℚ) : List ParseBlock :=
  match jsonData with
  | none => []
  | some (.arr bs) => assignIds "marker-" (markerBlockListToBlocks pageWidth pageHeight bs)
  | some (.obj ch bt bx txt htm poly pidx) =>
      match ch with
      | some cs => assignIds "marker-" (markerBlockListToBlocks pageWidth pageHeight cs)
      | none =>
          match truthyStr bt with
          | some bts =>
              assignIds "marker-"
                (markerBlockToBlocks pageWidth pageHeight (.mk none bts txt htm poly bx pidx none))
          | none => []

/-- Per-page entry of `metadata.pages` in a Marker result. -/
structure MarkerPageMeta where
  width : ℚ
  height : ℚ
  page_num : ℤ
deriving DecidableEq, Repr

/-- The `metadata` member of `DatalabMarkerResultResponse`. -/
structure MarkerMetadata where
  page_width : Option ℚ
  page_height : Option ℚ
  pages : Option (List MarkerPageMeta)

/-- The `DatalabMarkerResultResponse` of `route.ts` (`images` is the
filename-to-base64 map, modelled as an association list). -/
structure DatalabMarkerResultResponse where
  status : String
  success : Bool
  markdown : Option String
  html : Option String
  json : Option DatalabMarkerJson
  children : Option (List DatalabMarkerBlock)
  images : Option (List (String × String))
  page_count : Option ℕ
  error : Option String
  metadata : Option MarkerMetadata

/-- The first stage of the page-dimension extraction in
`parseDatalabMarker`: `metadata.pages[0]` (zero components defaulting to 1),
else flat `metadata.page_width`/`page_height` when both are truthy, else the
page-level bbox of the JSON object (used as-is), else the 1×1 default. -/
def markerPageDimsStage1 (result : DatalabMarkerResultResponse) : ℚ × ℚ :=
  let fromPagesMeta : Option MarkerPageMeta :=
    match result.metadata with
    | some m =>
        match m.pages with
        | some (p :: _) => some p
        | _ => none
    | none => none
  match fromPagesMeta with
  | some p => (jsOrOne (some p.width), jsOrOne (some p.height))
  | none =>
      let fromFlatMeta : Option (ℚ × ℚ) :=
        match result.metadata with
        | some m =>
            match truthyQ m.page_width, truthyQ m.page_height with
            | some w, some h => some (w, h)
            | _, _ => none
        | none => none
      match fromFlatMeta with
      | some d => d
      | none =>
          match result.json with
          | some (.obj _ _ (some q) _ _ _ _) => (q.2.2.1 - q.1, q.2.2.2 - q.2.1)
          | _ => (1, 1)

/-- The page dimensions used by `parseDatalabMarker` when calling
`normalizeMarkerBlocks`: stage 1, then — still at the 1×1 default — the
fallback that searches the JSON object's children for a `Page` block and
uses its bbox. -/
def computeMarkerPageDims (result : DatalabMarkerResultResponse) : ℚ × ℚ :=
  let d := markerPageDimsStage1 result
  if d.1 = 1 ∧ d.2 = 1 then
    match result.json with
    | some (.obj (some cs) _ _ _ _ _ _) =>
        match cs.find? (fun b => b.blockType = "Page") with
        | some pb =>
            match pb.bboxField with
            | some q => (q.2.2.1 - q.1, q.2.2.2 - q.2.1)
            | none => d
        | none => d
    | _ => d
  else d

/-- Whether an image target is kept by the Marker stripping passes:
external URLs and data URIs survive, local references do not. -/
def isRemoteTarget (src : String) : Bool :=
  strIsPre "http://" src || strIsPre "https://" src || strIsPre "data:" src

/-- The no-images stripping pass of `processMarkerMarkdown` (also its final
cleanup pass): local image references become `[Image: alt]` (or `[Image]`
when the alt text is empty), remote ones are kept. -/
def markerStripStep (tok : MdToken) : MdToken :=
  match tok with
  | .image alt src =>
      if isRemoteTarget src then .image alt src
      else if alt ≠ "" then .text ("[Image: " ++ alt ++ "]")
      else .text "[Image]"
  | _ => tok

/-- JavaScript `filename.split('/').pop() || filename`. -/
def filenameOnly (filename : String) : String :=
  let last := lastComponent filename
  if last = "" then filename else last

/-- The embedding step of `processMarkerMarkdown` for one `(filename,
base64)` entry of the images map: replace exact-target references, and if
nothing matched, references containing the bare filename; the URL is the
blob upload when storage is configured and an inline data URI otherwise. -/
def markerEmbedStep (blobStore : String → Option String) (toks : List MdToken)
    (entry : String × String) : List MdToken :=
  let filename := entry.1
  let b64 := entry.2
  let imageUrl :=
    match blobStore b64 with
    | some u => u
    | none => if strIsPre "data:" b64 then b64 else "data:image/png;base64," ++ b64
  let exact := toks.map (fun tok =>
    match tok with
    | .image alt tgt => if tgt = filename then .image alt imageUrl else .image alt tgt
    | _ => tok)
  if exact ≠ toks then exact
  else
    toks.map (fun tok =>
      match tok with
      | .image alt tgt =>
          if strContains tgt (filenameOnly filename) then .image alt imageUrl
          else .image alt tgt
      | _ => tok)

/-- The `processMarkerMarkdown` of `route.ts` over the token model: with no
images available, only the stripping pass runs; otherwise each image is
embedded and remaining local references are stripped. -/
def processMarkerMarkdown (blobStore : String → Option String) (toks : List MdToken)
    (images : Option (List (String × String))) : List MdToken :=
  match images with
  | none => toks.map markerStripStep
  | some [] => toks.map markerStripStep
  | some imgs =>
      (imgs.foldl (markerEmbedStep blobStore) toks).map markerStripStep

/-- An HTML fragment, tokenized: raw pieces and `<img src="...">` tags. -/
inductive HtmlToken where
  | piece (s : String)
  | imgTag (src : String)
deriving DecidableEq, Repr

/-- The no-images stripping pass of `processMarkerHtml`: local `<img>`
tags become an HTML comment naming the removed source. -/
def markerHtmlStripStep (tok : HtmlToken) : HtmlToken :=
  match tok with
  | .imgTag src =>
      if isRemoteTarget src then .imgTag src
      else .piece ("<!-- Image removed: " ++ src ++ " -->")
  | _ => tok

/-- The final stripping pass of the with-images branch of
`processMarkerHtml` (the removal comment does not name the source there). -/
def markerHtmlStripStepAnon (tok : HtmlToken) : HtmlToken :=
  match tok with
  | .imgTag src =>
      if isRemoteTarget src then .imgTag src
      else .piece "<!-- Image removed -->"
  | _ => tok

/-- The embedding step of `processMarkerHtml` for one images-map entry:
`src` attributes equal to the filename, or containing the bare filename,
are rewritten to the uploaded/inline URL. -/
def markerHtmlEmbedStep (blobStore : String → Option String) (toks : List HtmlToken)
    (entry : String × String) : List HtmlToken :=
  let filename := entry.1
  let b64 := entry.2
  let imageUrl :=
    match blobStore b64 with
    | some u => u
    | none => if strIsPre "data:" b64 then b64 else "data:image/png;base64," ++ b64
  let exactPass : List HtmlToken := toks.map (fun tok =>
    match tok with
    | .imgTag src => if src = filename then .imgTag imageUrl else .imgTag src
    | _ => tok)
  exactPass.map (fun tok =>
    match tok with
    | .imgTag src =>
        if strContains src (filenameOnly filename) then .imgTag imageUrl else .imgTag src
    | _ => tok)

/-- The `processMarkerHtml` of `route.ts` over the token model. -/
def processMarkerHtml (blobStore : String → Option String) (toks : List HtmlToken)
    (images : Option (List (String × String))) : List HtmlToken :=
  match images with
  | none => toks.map markerHtmlStripStep
  | some [] => toks.map markerHtmlStripStep
  | some imgs =>
      (imgs.foldl (markerHtmlEmbedStep blobStore) toks).map markerHtmlStripStepAnon

/-! ## Input preprocessor: `stripPdfToFirstPages` (`route.ts`) -/

/-- The byte payload of one PDF page. -/
abbrev PageBytes := List ℕ

/-- A document's byte payload as seen by pdf-lib: either a structurally
parseable PDF (a sequence of pages) or bytes that `PDFDocument.load`
rejects. -/
inductive FileBytes where
  | pdf (pages : List PageBytes)
  | raw (bytes : List ℕ)
deriving DecidableEq, Repr

/-- A `File`: name, declared MIME type, and byte payload. -/
structure FileModel where
  name : String
  type : String
  content : FileBytes
deriving DecidableEq, Repr

/-- The `PDFDocument.load`: succeeds exactly on structurally valid PDFs. -/
def pdfLoad : FileBytes → Option (List PageBytes)
  | .pdf pages => some pages
  | .raw _ => none

/-- The page indices copied by `stripPdfToFirstPages`:
`Array.from({length: maxPages}, (_, i) => i)`. -/
def stripIndices (maxPages : ℕ) : List ℕ :=
  List.range maxPages

/-- The `stripPdfToFirstPages` of `route.ts`.  `rebuild` models the
`PDFDocument.create` / `copyPages` / `addPage` / `save` pipeline of pdf-lib
(external to this repository): it either yields a new PDF with exactly the
given pages or fails, and any failure is caught and the original file
returned. -/
def stripPdfToFirstPages (rebuild : List PageBytes → Option FileBytes)
    (file : FileModel) (maxPages : ℕ) : FileModel :=
  if file.type ≠ "application/pdf" ∧ ¬(strEndsWith (strToLower file.name) ".pdf" = true) then file
  else
    match pdfLoad file.content with
    | none => file
    | some pages =>
        if pages.length ≤ maxPages then file
        else
          let pagesToCopy := (stripIndices maxPages).map (fun i => pages.getD i [])
          match rebuild pagesToCopy with
          | none => file
          | some newBytes => { name := file.name, type := "application/pdf", content := newBytes }

/-- The `MAX_PDF_PAGES` of `route.ts`. -/
def MAX_PDF_PAGES : ℕ := 2

/-- The reference behaviour of a successful pdf-lib rebuild: a new PDF
holding exactly the copied pages. -/
def pdfRebuildOk (pages : List PageBytes) : Option FileBytes :=
  some (.pdf pages)

/-! ## Polling adapters (`parseLlamaParse`, `parseDatalabMarker`) -/

/-- The `LlamaParseStatusResponse` of `route.ts`. -/
structure LlamaParseStatusResponse where
  id : String
  status : String
  num_pages : Option ℕ
  error_message : Option String
deriving DecidableEq, Repr

/-- Terminal outcome of a polling loop, with the number of status checks
performed and the elapsed milliseconds accumulated from the submission
latency, the per-check latencies, and the sleeps between polls. -/
inductive PollOutcome where
  | success (checks : ℕ) (elapsedMs : ℕ)
  | failure (checks : ℕ) (elapsedMs : ℕ) (message : String)
  | timedOut (checks : ℕ) (elapsedMs : ℕ)
deriving DecidableEq, Repr

/-- The polling interval of both polling adapters (2000 ms). -/
def pollIntervalMs : ℕ := 2000

/-- The attempt budget of `parseLlamaParse`. -/
def llamaMaxAttempts : ℕ := 30

/-- The attempt budget of `parseDatalabMarker`. -/
def markerMaxAttempts : ℕ := 60

/-- The polling loop of `parseLlamaParse` from a given attempt index:
check the status; `SUCCESS`/`PARTIAL_SUCCESS` terminates successfully,
`ERROR` fails with the backend message, anything else sleeps one interval
and retries until the attempt budget is exhausted.  `check` is the scripted
backend (`checkLlamaParseStatus` per attempt), `lat` the per-check network
latency. -/
def llamaPollFrom (check : ℕ → LlamaParseStatusResponse) (lat : ℕ → ℕ) :
    ℕ → ℕ → ℕ → PollOutcome
  | attempt, 0, acc => .timedOut attempt acc
  | attempt, remaining + 1, acc =>
      let st := check attempt
      let acc1 := acc + lat attempt
      if st.status = "SUCCESS" ∨ st.status = "PARTIAL_SUCCESS" then
        .success (attempt + 1) acc1
      else if st.status = "ERROR" then
        .failure (attempt + 1) acc1
          ("LlamaParse: " ++ jsOrElse st.error_message "Processing failed")
      else llamaPollFrom check lat (attempt + 1) remaining (acc1 + pollIntervalMs)

/-- The polling phase of `parseLlamaParse`: 30 attempts starting from
attempt 0, the elapsed counter starting at the submission latency. -/
def parseLlamaParsePoll (check : ℕ → LlamaParseStatusResponse) (lat : ℕ → ℕ)
    (uploadLatency : ℕ) : PollOutcome :=
  llamaPollFrom check lat 0 llamaMaxAttempts uploadLatency

/-- The polling loop of `parseDatalabMarker` from a given attempt index:
status `"complete"` terminates (successfully when the `success` flag is
set), status `"error"` fails, anything else sleeps one interval and
retries. -/
def markerPollFrom (check : ℕ → DatalabMarkerResultResponse) (lat : ℕ → ℕ) :
    ℕ → ℕ → ℕ → PollOutcome
  | attempt, 0, acc => .timedOut attempt acc
  | attempt, remaining + 1, acc =>
      let r := check attempt
      let acc1 := acc + lat attempt
      if r.status = "complete" then
        if r.success then .success (attempt + 1) acc1
        else .failure (attempt + 1) acc1
          ("Datalab Marker: " ++ jsOrElse r.error "Processing failed")
      else if r.status = "error" then
        .failure (attempt + 1) acc1
          ("Datalab Marker: " ++ jsOrElse r.error "Processing failed")
      else markerPollFrom check lat (attempt + 1) remaining (acc1 + pollIntervalMs)

/-- The polling phase of `parseDatalabMarker`: 60 attempts starting from
attempt 0. -/
def parseDatalabMarkerPoll (check : ℕ → DatalabMarkerResultResponse) (lat : ℕ → ℕ)
    (submitLatency : ℕ) : PollOutcome :=
  markerPollFrom check lat 0 markerMaxAttempts submitLatency

/-! ## Orchestrator (`startBenchmark` of the page component) -/

/-- The `DOCUMENT_PARSER_IDS` of the page component. -/
def DOCUMENT_PARSER_IDS : List String := ["llamaparse", "mistral-ocr", "datalab-marker"]

/-- A per-provider outcome as recorded in `ParseResult.status` after a run:
`complete` with content, outputs and stats, `error` with the message and
zeroed stats, or `skipped` with a reason. -/
inductive RunOutcome where
  | complete (content : String) (outputs : ParseOutputs) (stats : ParseStats)
  | error (message : String) (stats : ParseStats)
  | skipped (reason : String)
deriving DecidableEq, Repr

/-- Whether an outcome is `complete`. -/
def RunOutcome.isComplete : RunOutcome → Bool
  | .complete _ _ _ => true
  | _ => false

/-- Whether an outcome is `error`. -/
def RunOutcome.isError : RunOutcome → Bool
  | .error _ _ => true
  | _ => false

/-- The final per-provider result of `startBenchmark` for one selected
provider id: vision LLMs are skipped up front for PDF input without
invoking their adapter; otherwise the adapter (`parseDocument`) either
resolves with content, outputs and stats, or rejects and is caught and
converted into an error outcome with zeroed stats. -/
def providerOutcome (adapters : String → Except String (String × ParseOutputs × ParseStats))
    (isPdf : Bool) (id : String) : RunOutcome :=
  if isPdf ∧ id ∉ DOCUMENT_PARSER_IDS then
    .skipped "PDF not supported by Vision LLMs"
  else
    match adapters id with
    | .ok r => .complete r.1 r.2.1 r.2.2
    | .error e => .error e { time := 0, cost := 0, tokens := 0, pages := none }

/-- The `startBenchmark` of the page component, as the final results list it
settles into: every selected provider is mapped independently to its own
outcome. -/
def startBenchmark (adapters : String → Except String (String × ParseOutputs × ParseStats))
    (isPdf : Bool) (selected : List String) : List (String × RunOutcome) :=
  selected.map (fun id => (id, providerOutcome adapters isPdf id))

/-! ## Invariant predicates -/

/-- The unit-square invariant on a canonical bbox with slack `eps`
(§3 of the spec): `0 ≤ x ≤ 1+ε`, `0 ≤ y ≤ 1+ε`, `x+w ≤ 1+ε`,
`y+h ≤ 1+ε`. -/
def unitBoxEps (b : BBox) (eps : ℚ) : Prop :=
  0 ≤ b.x ∧ b.x ≤ 1 + eps ∧ 0 ≤ b.y ∧ b.y ≤ 1 + eps ∧
    b.x + b.w ≤ 1 + eps ∧ b.y + b.h ≤ 1 + eps

instance (b : BBox) (eps : ℚ) : Decidable (unitBoxEps b eps) := by
  unfold unitBoxEps
  infer_instance

/-- The exact unit-square invariant (no slack). -/
def unitBox (b : BBox) : Prop := unitBoxEps b 0

/-- The unit-square invariant on an optional bbox (absent boxes are fine). -/
def unitBoxOpt : Option BBox → Prop
  | none => True
  | some b => unitBox b

/-- In-range condition on one LlamaParse content item relative to the
effective page dimensions: a pixel-space `bBox`, when present, is
non-negative and lies within the page. -/
def llamaItemOK (W H : ℚ) (it : LlamaParseItem) : Prop :=
  ∀ bb, it.bBox = some bb →
    0 ≤ bb.x ∧ 0 ≤ bb.y ∧ 0 ≤ bb.w ∧ 0 ≤ bb.h ∧ bb.x + bb.w ≤ W ∧ bb.y + bb.h ≤ H

/-- In-range condition on one LlamaParse page: positive effective
dimensions, layout bboxes already unit fractions, item bboxes within the
page. -/
def llamaPageOK (page : LlamaParseJsonPage) : Prop :=
  0 < jsOrOne page.width ∧ 0 < jsOrOne page.height ∧
    (∀ li ∈ page.layout.getD [], unitBox li.bbox) ∧
    (∀ it ∈ page.items.getD [], llamaItemOK (jsOrOne page.width) (jsOrOne page.height) it)

/-- In-range condition on a raw LlamaParse JSON result. -/
def llamaRawInRange (jr : LlamaParseJsonResult) : Prop :=
  ∀ page ∈ jr.pages, llamaPageOK page

/-- In-range condition on one Mistral item's pixel corners relative to the
page dimensions: whenever all four corners are present they are ordered and
within the page. -/
def mistralCornersOK (W H : ℚ) (tlx tly brx bry : Option ℚ) : Prop :=
  ∀ a b c d, tlx = some a → tly = some b → brx = some c → bry = some d →
    0 ≤ a ∧ a ≤ c ∧ c ≤ W ∧ 0 ≤ b ∧ b ≤ d ∧ d ≤ H

/-- In-range condition on one Mistral page: whenever the page reports
dimensions they are positive and every image and table corner set lies
within them. -/
def mistralPageOK (page : MistralOCRPage) : Prop :=
  ∀ d, page.dimensions = some d →
    0 < d.width ∧ 0 < d.height ∧
      (∀ img ∈ page.images.getD [],
        mistralCornersOK d.width d.height img.top_left_x img.top_left_y
          img.bottom_right_x img.bottom_right_y) ∧
      (∀ t ∈ page.tables.getD [],
        mistralCornersOK d.width d.height t.top_left_x t.top_left_y
          t.bottom_right_x t.bottom_right_y)

/-- In-range condition on a raw Mistral OCR response. -/
def mistralRawInRange (resp : MistralOCRResponse) : Prop :=
  ∀ page ∈ resp.pages, mistralPageOK page

/-- In-range condition local to one Marker block: polygon points lie within
the page, and bbox arrays are ordered and within the page. -/
def markerBlockLocalOK (W H : ℚ) (b : DatalabMarkerBlock) : Prop :=
  (∀ pts, b.polygonField = some pts → ∀ p ∈ pts, 0 ≤ p.1 ∧ p.1 ≤ W ∧ 0 ≤ p.2 ∧ p.2 ≤ H) ∧
    (∀ q, b.bboxField = some q →
      0 ≤ q.1 ∧ q.1 ≤ q.2.2.1 ∧ q.2.2.1 ≤ W ∧ 0 ≤ q.2.1 ∧ q.2.1 ≤ q.2.2.2 ∧ q.2.2.2 ≤ H)

/-- The top-level blocks that `normalizeMarkerBlocks` flattens for a given
JSON payload: the array itself, the object's children, or the object cast
to a single block when it has a truthy `block_type`. -/
def markerJsonTopBlocks : Option DatalabMarkerJson → List DatalabMarkerBlock
  | none => []
  | some (.arr bs) => bs
  | some (.obj ch bt bx txt htm poly pidx) =>
      match ch with
      | some cs => cs
      | none =>
          match truthyStr bt with
          | some bts => [.mk none bts txt htm poly bx pidx none]
          | none => []

/-- In-range condition on a raw Marker JSON payload: every block reachable
from the flattened top-level blocks is locally in range. -/
def markerRawInRange (W H : ℚ) (jd : Option DatalabMarkerJson) : Prop :=
  ∀ b ∈ markerJsonTopBlocks jd, ∀ c ∈ markerDescendants b, markerBlockLocalOK W H c

/-! ## Concrete example inputs for counterexamples and witnesses -/

/-- A raw LlamaParse result whose single layout item carries the
out-of-range bbox `{x: 10, y: 0, w: 0, h: 0}` (LlamaParse layout bboxes are
passed through unchanged by the normalizer). -/
def exLlamaOutOfRange : LlamaParseJsonResult :=
  { pages := [{ page := 1, text := none, md := none, width := none, height := none,
                items := none,
                layout := some [{ type := "text", label := none,
                                  bbox := { x := 10, y := 0, w := 0, h := 0 },
                                  confidence := none, page_number := none,
                                  image_name := none, isLikelyNoise := none }] }] }

/-- An in-range LlamaParse result: one 1000×500 page with one text item
whose pixel bbox is `{x:100, y:50, w:200, h:100}` (the spec's round-trip
example). -/
def exLlamaInRange : LlamaParseJsonResult :=
  { pages := [{ page := 1, text := none, md := none,
                width := some 1000, height := some 500,
                items := some [{ type := "text", value := some "hello", lvl := none,
                                 bBox := some { x := 100, y := 50, w := 200, h := 100 },
                                 children := none }],
                layout := none }] }

/-- An in-range Mistral response: one 1000×500 page with one image whose
pixel corners are `(100,50)`-`(300,150)`. -/
def exMistralInRange : MistralOCRResponse :=
  { pages := [{ index := 0, markdown := "",
                images := some [{ id := "img-0", image_base64 := none,
                                  top_left_x := some 100, top_left_y := some 50,
                                  bottom_right_x := some 300, bottom_right_y := some 150 }],
                tables := none,
                dimensions := some { width := 1000, height := 500 } }],
    model := "mistral-ocr-latest", pages_processed := some 1 }

/-- An in-range Marker payload: a single text block with bbox
`[0, 0, 50, 50]` on a 100×100 page. -/
def exMarkerInRange : Option DatalabMarkerJson :=
  some (.arr [.mk none "Text" (some "hi") none none (some (0, 0, 50, 50)) none none])

/-- A Marker result whose metadata is absent and whose JSON object carries
the degenerate page-level bbox `[0, 0, 0, 0]` together with one child block
with a real pixel bbox. -/
def exMarkerDegenerate : DatalabMarkerResultResponse :=
  { status := "complete", success := true, markdown := some "", html := none,
    json := some (.obj
      (some [.mk none "Text" (some "hello") none none (some (10, 20, 110, 220)) none none])
      none (some (0, 0, 0, 0)) none none none none),
    children := none, images := none, page_count := some 1, error := none,
    metadata := none }

/-- The effect of the whole Mistral image pass on one token when no image
of the response carries base64 bytes: a reference whose target starts with
some listed image id becomes the `[Image: alt]` placeholder; everything
else is untouched. -/
def mistralBytelessStep (images : List MistralOCRImage) (tok : MdToken) : MdToken :=
  match tok with
  | .image alt t =>
      if images.any (fun img => strIsPre img.id t) then .text ("[Image: " ++ alt ++ "]")
      else .image alt t
  | _ => tok

/-- Total status-check latency over `k` checks starting at attempt `a`. -/
def sumLatFrom (lat : ℕ → ℕ) : ℕ → ℕ → ℕ
  | _, 0 => 0
  | a, k + 1 => lat a + sumLatFrom lat (a + 1) k

/-- A Marker result whose metadata reports a first page of width 0 and
height 600 (zero width must default to 1). -/
def exMarkerMetaZero : DatalabMarkerResultResponse :=
  { status := "complete", success := true, markdown := some "", html := none,
    json := none, children := none, images := none, page_count := some 1, error := none,
    metadata := some { page_width := none, page_height := none,
                       pages := some [{ width := 0, height := 600, page_num := 1 }] } }

/-- A Marker result with no metadata and no JSON payload (the fully
degraded case). -/
def exMarkerNoDims : DatalabMarkerResultResponse :=
  { status := "complete", success := true, markdown := some "", html := none,
    json := none, children := none, images := none, page_count := some 1, error := none,
    metadata := none }

/-! ## Claim C7 and C9 theorems -/

/-- Claim C7: for every model id absent from the per-page pricing table and
every page count `p ≥ 1`, `calculatePageCost` returns `p × 0.001`, which is
never zero. -/
theorem calculatePageCost_unknown_key (modelId : String) (p : ℕ)
    (hkey : OCR_PAGE_PRICING modelId = none) (hp : 1 ≤ p) :
    calculatePageCost modelId p = (p : ℚ) * (1/1000) ∧ calculatePageCost modelId p ≠ 0 := by
  have hcost : calculatePageCost modelId p = (p : ℚ) * (1/1000) := by
    simp [calculatePageCost, hkey]
  refine ⟨hcost, ?_⟩
  rw [hcost]
  have hp0 : (0 : ℚ) < (p : ℚ) := by exact_mod_cast hp
  positivity

/-- Witness for C7: the unknown model id `"unknown-model"` with 3 pages is
charged `3 × 0.001 = 0.003`, a nonzero cost. -/
theorem calculatePageCost_unknown_key_witness :
    calculatePageCost "unknown-model" 3 = (3 : ℚ) * (1/1000) ∧
      calculatePageCost "unknown-model" 3 ≠ 0 :=
  calculatePageCost_unknown_key "unknown-model" 3 (by decide) (by decide)

/-- Claim C9: for every provider id absent from the per-token pricing table
and all token counts, `calculateCost` returns exactly 0. -/
theorem calculateCost_unknown_provider (providerId : String)
    (hkey : PRICING providerId = none) (inputTokens outputTokens : ℕ) :
    calculateCost providerId inputTokens outputTokens = 0 := by
  simp [calculateCost, hkey]

/-- Witness for C9: the unknown provider id `"mistral-ocr"` (a provider id
that is not a PRICING key) with 1000 input and 500 output tokens is
reported as costing 0. -/
theorem calculateCost_unknown_provider_witness :
    calculateCost "mistral-ocr" 1000 500 = 0 :=
  calculateCost_unknown_provider "mistral-ocr" (by decide) 1000 500

/-! ## Helper lemmas -/

/-- The copied page list of `stripPdfToFirstPages` is exactly the first
`m` pages, in order. -/
theorem range_map_getD_take (m : ℕ) (pages : List PageBytes) (h : m ≤ pages.length) :
    (stripIndices m).map (fun i => pages.getD i []) = pages.take m := by
  unfold stripIndices
  induction m with
  | zero => simp
  | succ n ih =>
      rw [List.range_succ, List.map_append, ih (by omega), List.take_succ]
      have hn : n < pages.length := by omega
      simp [List.getD_eq_getElem?_getD, List.getElem?_eq_getElem hn]

/-! ## Claim C2: PDF truncation keeps exactly the first maxPages pages -/

/-- Claim C2: for every PDF document with more pages than `maxPages` (and a
successful pdf-lib rebuild), `stripPdfToFirstPages` returns a new PDF
document whose pages are exactly the first `maxPages` pages of the
original, in order and byte-for-byte identical. -/
theorem stripPdfToFirstPages_truncates
    (rebuild : List PageBytes → Option FileBytes) (f : FileModel) (maxPages : ℕ)
    (pages : List PageBytes)
    (htype : f.type = "application/pdf")
    (hcontent : f.content = .pdf pages)
    (hover : maxPages < pages.length)
    (hrebuild : rebuild (pages.take maxPages) = some (.pdf (pages.take maxPages))) :
    stripPdfToFirstPages rebuild f maxPages =
      { name := f.name, type := "application/pdf", content := .pdf (pages.take maxPages) } ∧
    (pages.take maxPages).length = maxPages ∧
    ∀ i, i < maxPages → (pages.take maxPages).getD i [] = pages.getD i [] := by
  refine ⟨?_, ?_, ?_⟩
  · unfold stripPdfToFirstPages
    rw [if_neg (by simp [htype]), hcontent]
    simp only [pdfLoad]
    rw [if_neg (Nat.not_le.mpr hover)]
    simp only [range_map_getD_take maxPages pages (by omega), hrebuild]
  · simp [List.length_take]
    omega
  · intro i hi
    simp [List.getD_eq_getElem?_getD, List.getElem?_take, hi]

/-- Witness for C2: a 5-page PDF stripped to `MAX_PDF_PAGES = 2` yields the
2-page document made of exactly pages 1-2 of the original. -/
theorem stripPdfToFirstPages_truncates_witness :
    stripPdfToFirstPages pdfRebuildOk
        { name := "doc.pdf", type := "application/pdf",
          content := .pdf [[0], [1], [2], [3], [4]] } MAX_PDF_PAGES =
      { name := "doc.pdf", type := "application/pdf", content := .pdf [[0], [1]] } ∧
    ([([0] : PageBytes), [1], [2], [3], [4]].take MAX_PDF_PAGES).length = MAX_PDF_PAGES ∧
    ∀ i, i < MAX_PDF_PAGES →
      ([([0] : PageBytes), [1], [2], [3], [4]].take MAX_PDF_PAGES).getD i [] =
        [([0] : PageBytes), [1], [2], [3], [4]].getD i [] :=
  stripPdfToFirstPages_truncates pdfRebuildOk
    { name := "doc.pdf", type := "application/pdf", content := .pdf [[0], [1], [2], [3], [4]] }
    MAX_PDF_PAGES [[0], [1], [2], [3], [4]] rfl rfl (by decide) rfl

/-! ## Claim C3: the preprocessor is the identity whenever it does not truncate -/

/-- Claim C3: `stripPdfToFirstPages` returns the original document
unchanged for non-PDF input, for PDFs already within the page budget, and
on any structural parse or rebuild failure; truncation failures never
propagate. -/
theorem stripPdfToFirstPages_identity :
    (∀ (rebuild : List PageBytes → Option FileBytes) (f : FileModel) (m : ℕ),
      f.type ≠ "application/pdf" → ¬(strEndsWith (strToLower f.name) ".pdf" = true) →
      stripPdfToFirstPages rebuild f m = f) ∧
    (∀ (rebuild : List PageBytes → Option FileBytes) (f : FileModel) (m : ℕ)
        (bytes : List ℕ), f.content = .raw bytes →
      stripPdfToFirstPages rebuild f m = f) ∧
    (∀ (rebuild : List PageBytes → Option FileBytes) (f : FileModel) (m : ℕ)
        (pages : List PageBytes), f.content = .pdf pages → pages.length ≤ m →
      stripPdfToFirstPages rebuild f m = f) ∧
    (∀ (rebuild : List PageBytes → Option FileBytes) (f : FileModel) (m : ℕ)
        (pages : List PageBytes), f.content = .pdf pages →
      rebuild ((stripIndices m).map (fun i => pages.getD i [])) = none →
      stripPdfToFirstPages rebuild f m = f) := by
  refine ⟨?_, ?_, ?_, ?_⟩
  · intro rebuild f m h1 h2
    unfold stripPdfToFirstPages
    rw [if_pos ⟨h1, h2⟩]
  · intro rebuild f m bytes h
    unfold stripPdfToFirstPages
    split
    · rfl
    · simp [h, pdfLoad]
  · intro rebuild f m pages h hle
    unfold stripPdfToFirstPages
    split
    · rfl
    · simp [h, pdfLoad, hle]
  · intro rebuild f m pages h hre
    unfold stripPdfToFirstPages
    split
    · rfl
    · simp only [h, pdfLoad]
      split
      · rfl
      · rw [hre]

/-- Witness for C3: a PNG image file passes through unchanged. -/
theorem stripPdfToFirstPages_identity_witness :
    stripPdfToFirstPages pdfRebuildOk
        { name := "photo.png", type := "image/png", content := .raw [137, 80] } 2 =
      { name := "photo.png", type := "image/png", content := .raw [137, 80] } :=
  stripPdfToFirstPages_identity.1 pdfRebuildOk
    { name := "photo.png", type := "image/png", content := .raw [137, 80] } 2
    (by decide) (by decide)

/-! ## Claim C5: failed structured-JSON fetch still yields a successful result -/

/-- Claim C5: when the LlamaParse job reaches a success status but the
structured-JSON fetch fails (`getLlamaParseJson` returns `null`), the
adapter still returns successfully with the fetched markdown populated and
the `json`/blocks output absent. -/
theorem parseLlamaParse_jsonFailure_degrades (markdown : String) (numPages : Option ℕ) :
    (parseLlamaParseSuccess markdown numPages none).2.2.markdown = markdown ∧
    (parseLlamaParseSuccess markdown numPages none).2.2.json = none ∧
    (parseLlamaParseSuccess markdown numPages none).1 = markdown := by
  refine ⟨rfl, ?_, rfl⟩
  simp [parseLlamaParseSuccess, normalizeLlamaParseBlocks]

/-! ## Claim C8: one failing provider does not affect its siblings -/

/-- Claim C8: in a three-provider run where exactly one adapter fails and
the other two succeed, `startBenchmark` reports exactly one error outcome
and two complete outcomes, and each succeeding provider's reported content,
outputs and stats are exactly its own adapter's result. -/
theorem startBenchmark_isolated_failure
    (adapters : String → Except String (String × ParseOutputs × ParseStats))
    (pA pB pC : String) (e : String)
    (cB : String) (oB : ParseOutputs) (sB : ParseStats)
    (cC : String) (oC : ParseOutputs) (sC : ParseStats)
    (hA : adapters pA = .error e)
    (hB : adapters pB = .ok (cB, oB, sB))
    (hC : adapters pC = .ok (cC, oC, sC)) :
    startBenchmark adapters false [pA, pB, pC] =
      [(pA, .error e { time := 0, cost := 0, tokens := 0, pages := none }),
       (pB, .complete cB oB sB), (pC, .complete cC oC sC)] ∧
    ((startBenchmark adapters false [pA, pB, pC]).filter
        (fun p => p.2.isError)).length = 1 ∧
    ((startBenchmark adapters false [pA, pB, pC]).filter
        (fun p => p.2.isComplete)).length = 2 := by
  have houtA : providerOutcome adapters false pA =
      .error e { time := 0, cost := 0, tokens := 0, pages := none } := by
    simp [providerOutcome, hA]
  have houtB : providerOutcome adapters false pB = .complete cB oB sB := by
    simp [providerOutcome, hB]
  have houtC : providerOutcome adapters false pC = .complete cC oC sC := by
    simp [providerOutcome, hC]
  refine ⟨?_, ?_, ?_⟩
  · simp [startBenchmark, houtA, houtB, houtC]
  · simp [startBenchmark, houtA, houtB, houtC, RunOutcome.isError]
  · simp [startBenchmark, houtA, houtB, houtC, RunOutcome.isComplete]

/-- Witness for C8: a concrete run where `llamaparse` fails and the other
two providers succeed with distinct outputs. -/
theorem startBenchmark_isolated_failure_witness :
    startBenchmark
        (fun id =>
          if id = "llamaparse" then .error "LlamaParse: Processing timed out"
          else if id = "mistral-ocr" then
            .ok ("m", { markdown := "m", html := none, json := none },
              { time := 3, cost := 1/1000, tokens := 0, pages := some 1 })
          else
            .ok ("d", { markdown := "d", html := none, json := none },
              { time := 5, cost := 5/1000, tokens := 0, pages := some 1 }))
        false ["llamaparse", "mistral-ocr", "datalab-marker"] =
      [("llamaparse", .error "LlamaParse: Processing timed out"
          { time := 0, cost := 0, tokens := 0, pages := none }),
       ("mistral-ocr", .complete "m" { markdown := "m", html := none, json := none }
          { time := 3, cost := 1/1000, tokens := 0, pages := some 1 }),
       ("datalab-marker", .complete "d" { markdown := "d", html := none, json := none }
          { time := 5, cost := 5/1000, tokens := 0, pages := some 1 })] ∧
    ((startBenchmark
        (fun id =>
          if id = "llamaparse" then .error "LlamaParse: Processing timed out"
          else if id = "mistral-ocr" then
            .ok ("m", { markdown := "m", html := none, json := none },
              { time := 3, cost := 1/1000, tokens := 0, pages := some 1 })
          else
            .ok ("d", { markdown := "d", html := none, json := none },
              { time := 5, cost := 5/1000, tokens := 0, pages := some 1 }))
        false ["llamaparse", "mistral-ocr", "datalab-marker"]).filter
        (fun p => p.2.isError)).length = 1 ∧
    ((startBenchmark
        (fun id =>
          if id = "llamaparse" then .error "LlamaParse: Processing timed out"
          else if id = "mistral-ocr" then
            .ok ("m", { markdown := "m", html := none, json := none },
              { time := 3, cost := 1/1000, tokens := 0, pages := some 1 })
          else
            .ok ("d", { markdown := "d", html := none, json := none },
              { time := 5, cost := 5/1000, tokens := 0, pages := some 1 }))
        false ["llamaparse", "mistral-ocr", "datalab-marker"]).filter
        (fun p => p.2.isComplete)).length = 2 :=
  startBenchmark_isolated_failure _ "llamaparse" "mistral-ocr" "datalab-marker"
    "LlamaParse: Processing timed out"
    "m" { markdown := "m", html := none, json := none }
    { time := 3, cost := 1/1000, tokens := 0, pages := some 1 }
    "d" { markdown := "d", html := none, json := none }
    { time := 5, cost := 5/1000, tokens := 0, pages := some 1 }
    rfl rfl rfl

/-! ## Claim C4: polling adapters under a scripted backend -/

/-- Unfolding lemma for the LlamaParse polling loop under a scripted
backend that stays `PENDING` for `k` checks and succeeds on check `k+1`:
the loop performs exactly `k+1` checks and accumulates exactly `k` sleeps
on top of the check latencies. -/
theorem llamaPollFrom_scripted (check : ℕ → LlamaParseStatusResponse) (lat : ℕ → ℕ) :
    ∀ (k attempt remaining acc : ℕ), k < remaining →
    (∀ i, i < k → (check (attempt + i)).status = "PENDING") →
    (check (attempt + k)).status = "SUCCESS" →
    llamaPollFrom check lat attempt remaining acc =
      .success (attempt + k + 1) (acc + sumLatFrom lat attempt (k + 1) + k * pollIntervalMs) := by
  intro k
  induction k with
  | zero =>
      intro attempt remaining acc hk hpend hsucc
      obtain ⟨r, rfl⟩ : ∃ r, remaining = r + 1 := ⟨remaining - 1, by omega⟩
      simp only [llamaPollFrom]
      rw [if_pos (Or.inl (by simpa using hsucc))]
      simp [sumLatFrom]
  | succ k ih =>
      intro attempt remaining acc hk hpend hsucc
      obtain ⟨r, rfl⟩ : ∃ r, remaining = r + 1 := ⟨remaining - 1, by omega⟩
      have hp0 : (check attempt).status = "PENDING" := by
        simpa using hpend 0 (by omega)
      simp only [llamaPollFrom]
      rw [if_neg (by simp [hp0]), if_neg (by simp [hp0])]
      have hrec := ih (attempt + 1) r (acc + lat attempt + pollIntervalMs) (by omega)
        (fun i hi => by
          have h := hpend (i + 1) (by omega)
          have harith : attempt + (i + 1) = attempt + 1 + i := by omega
          rwa [harith] at h)
        (by
          have harith : attempt + 1 + k = attempt + (k + 1) := by omega
          rw [harith]
          exact hsucc)
      rw [hrec]
      have harith : attempt + 1 + k + 1 = attempt + (k + 1) + 1 := by omega
      rw [harith]
      have hsum : sumLatFrom lat attempt (k + 1 + 1) =
          lat attempt + sumLatFrom lat (attempt + 1) (k + 1) := rfl
      have helapsed : acc + lat attempt + pollIntervalMs +
            sumLatFrom lat (attempt + 1) (k + 1) + k * pollIntervalMs =
          acc + sumLatFrom lat attempt (k + 1 + 1) + (k + 1) * pollIntervalMs := by
        rw [hsum]
        simp [pollIntervalMs]
        omega
      rw [helapsed]

/-- Unfolding lemma for the Datalab Marker polling loop under a scripted
backend: `k` non-terminal statuses followed by a successful `complete`
status give exactly `k+1` checks and `k` sleeps. -/
theorem markerPollFrom_scripted (check : ℕ → DatalabMarkerResultResponse) (lat : ℕ → ℕ) :
    ∀ (k attempt remaining acc : ℕ), k < remaining →
    (∀ i, i < k → (check (attempt + i)).status ≠ "complete" ∧
      (check (attempt + i)).status ≠ "error") →
    (check (attempt + k)).status = "complete" →
    (check (attempt + k)).success = true →
    markerPollFrom check lat attempt remaining acc =
      .success (attempt + k + 1) (acc + sumLatFrom lat attempt (k + 1) + k * pollIntervalMs) := by
  intro k
  induction k with
  | zero =>
      intro attempt remaining acc hk hpend hcomplete hflag
      obtain ⟨r, rfl⟩ : ∃ r, remaining = r + 1 := ⟨remaining - 1, by omega⟩
      simp only [markerPollFrom]
      rw [if_pos (by simpa using hcomplete), if_pos (by simpa using hflag)]
      simp [sumLatFrom]
  | succ k ih =>
      intro attempt remaining acc hk hpend hcomplete hflag
      obtain ⟨r, rfl⟩ : ∃ r, remaining = r + 1 := ⟨remaining - 1, by omega⟩
      have hp0 := hpend 0 (by omega)
      simp only [Nat.add_zero] at hp0
      simp only [markerPollFrom]
      rw [if_neg (by simp [hp0.1]), if_neg (by simp [hp0.2])]
      have hrec := ih (attempt + 1) r (acc + lat attempt + pollIntervalMs) (by omega)
        (fun i hi => by
          have h := hpend (i + 1) (by omega)
          have harith : attempt + (i + 1) = attempt + 1 + i := by omega
          rwa [harith] at h)
        (by
          have harith : attempt + 1 + k = attempt + (k + 1) := by omega
          rw [harith]
          exact hcomplete)
        (by
          have harith : attempt + 1 + k = attempt + (k + 1) := by omega
          rw [harith]
          exact hflag)
      rw [hrec]
      have harith : attempt + 1 + k + 1 = attempt + (k + 1) + 1 := by omega
      rw [harith]
      have hsum : sumLatFrom lat attempt (k + 1 + 1) =
          lat attempt + sumLatFrom lat (attempt + 1) (k + 1) := rfl
      have helapsed : acc + lat attempt + pollIntervalMs +
            sumLatFrom lat (attempt + 1) (k + 1) + k * pollIntervalMs =
          acc + sumLatFrom lat attempt (k + 1 + 1) + (k + 1) * pollIntervalMs := by
        rw [hsum]
        simp [pollIntervalMs]
        omega
      rw [helapsed]

/-- Claim C4 (amended): for every `N` within the attempt budget, a polling
adapter whose backend is pending for the first `N-1` status checks and
terminal-successful on the `N`-th succeeds after exactly `N` checks; the
elapsed time it reports is the submission latency plus the check latencies
plus exactly `(N-1) × pollInterval` of sleeping — hence at least
`(N-1) × pollInterval` (not `N × pollInterval` as originally claimed). -/
theorem pollingAdapters_succeed_in_N_checks :
    (∀ (check : ℕ → LlamaParseStatusResponse) (lat : ℕ → ℕ) (uploadLatency N : ℕ),
      1 ≤ N → N ≤ llamaMaxAttempts →
      (∀ i, i + 1 < N → (check i).status = "PENDING") →
      (check (N - 1)).status = "SUCCESS" →
      parseLlamaParsePoll check lat uploadLatency =
        .success N (uploadLatency + sumLatFrom lat 0 N + (N - 1) * pollIntervalMs) ∧
      (N - 1) * pollIntervalMs ≤
        uploadLatency + sumLatFrom lat 0 N + (N - 1) * pollIntervalMs) ∧
    (∀ (check : ℕ → DatalabMarkerResultResponse) (lat : ℕ → ℕ) (submitLatency N : ℕ),
      1 ≤ N → N ≤ markerMaxAttempts →
      (∀ i, i + 1 < N → (check i).status ≠ "complete" ∧ (check i).status ≠ "error") →
      (check (N - 1)).status = "complete" → (check (N - 1)).success = true →
      parseDatalabMarkerPoll check lat submitLatency =
        .success N (submitLatency + sumLatFrom lat 0 N + (N - 1) * pollIntervalMs) ∧
      (N - 1) * pollIntervalMs ≤
        submitLatency + sumLatFrom lat 0 N + (N - 1) * pollIntervalMs) := by
  constructor
  · intro check lat uploadLatency N h1 hbudget hpend hsucc
    have hscr := llamaPollFrom_scripted check lat (N - 1) 0 llamaMaxAttempts uploadLatency
      (by simp only [llamaMaxAttempts] at hbudget ⊢; omega)
      (fun i hi => by
        have h := hpend i (by omega)
        simpa using h)
      (by simpa using hsucc)
    have hN : N - 1 + 1 = N := by omega
    constructor
    · unfold parseLlamaParsePoll
      rw [hscr]
      simp only [Nat.zero_add, hN]
    · exact Nat.le_add_left _ _
  · intro check lat submitLatency N h1 hbudget hpend hcomplete hflag
    have hscr := markerPollFrom_scripted check lat (N - 1) 0 markerMaxAttempts submitLatency
      (by simp only [markerMaxAttempts] at hbudget ⊢; omega)
      (fun i hi => by
        have h := hpend i (by omega)
        simpa using h)
      (by simpa using hcomplete)
      (by simpa using hflag)
    have hN : N - 1 + 1 = N := by omega
    constructor
    · unfold parseDatalabMarkerPoll
      rw [hscr]
      simp only [Nat.zero_add, hN]
    · exact Nat.le_add_left _ _

/-- Counterexample for C4 as stated: with `N = 1` (immediate success) and
no network latency, the LlamaParse polling phase performs one status check
and accumulates zero elapsed milliseconds, which is strictly less than
`N × pollInterval = 2000 ms`; the adapter sleeps only between checks, so
the originally claimed `N × pollInterval` lower bound fails. -/
theorem pollingAdapter_elapsed_counterexample :
    parseLlamaParsePoll
        (fun _ => { id := "job", status := "SUCCESS", num_pages := some 1,
                    error_message := none })
        (fun _ => 0) 0 = .success 1 0 ∧
    ¬(1 * pollIntervalMs ≤ 0) := by
  constructor
  · rfl
  · decide

/-- Witness for the amended C4: with `N = 2` and zero latencies, both
polling adapters succeed after exactly 2 checks with exactly one
2000 ms sleep. -/
theorem pollingAdapters_succeed_in_N_checks_witness :
    (parseLlamaParsePoll
        (fun i => if i = 0 then
            { id := "job", status := "PENDING", num_pages := none, error_message := none }
          else
            { id := "job", status := "SUCCESS", num_pages := some 1, error_message := none })
        (fun _ => 0) 0 =
      .success 2 (0 + sumLatFrom (fun _ => 0) 0 2 + (2 - 1) * pollIntervalMs) ∧
    (2 - 1) * pollIntervalMs ≤ 0 + sumLatFrom (fun _ => 0) 0 2 + (2 - 1) * pollIntervalMs) ∧
    (parseDatalabMarkerPoll
        (fun i => if i = 0 then
            { status := "processing", success := false, markdown := none, html := none,
              json := none, children := none, images := none, page_count := none,
              error := none, metadata := none }
          else
            { status := "complete", success := true, markdown := some "ok", html := none,
              json := none, children := none, images := none, page_count := some 1,
              error := none, metadata := none })
        (fun _ => 0) 0 =
      .success 2 (0 + sumLatFrom (fun _ => 0) 0 2 + (2 - 1) * pollIntervalMs) ∧
    (2 - 1) * pollIntervalMs ≤ 0 + sumLatFrom (fun _ => 0) 0 2 + (2 - 1) * pollIntervalMs) := by
  constructor
  · exact pollingAdapters_succeed_in_N_checks.1 _ (fun _ => 0) 0 2 (by omega) (by decide)
      (fun i hi => by
        have : i = 0 := by omega
        subst this
        rfl)
      rfl
  · exact pollingAdapters_succeed_in_N_checks.2 _ (fun _ => 0) 0 2 (by omega) (by decide)
      (fun i hi => by
        have : i = 0 := by omega
        subst this
        exact ⟨by decide, by decide⟩)
      rfl rfl

/-! ## Claim C6: asset references without bytes become placeholders -/

/-- With no images listed, the byteless step is the identity. -/
theorem mistralBytelessStep_nil (tok : MdToken) : mistralBytelessStep [] tok = tok := by
  cases tok <;> simp [mistralBytelessStep]

/-- One byteless image step followed by the byteless characterization of
the remaining images equals the byteless characterization of all of them. -/
theorem mistralImageStep_byteless (bs : String → Option String) (img : MistralOCRImage)
    (h : img.image_base64 = none) (imgs : List MistralOCRImage) (tok : MdToken) :
    mistralBytelessStep imgs (mistralImageStep bs img tok) =
      mistralBytelessStep (img :: imgs) tok := by
  cases tok with
  | text s => simp [mistralImageStep, mistralBytelessStep, h]
  | link lab tgt => simp [mistralImageStep, mistralBytelessStep, h]
  | image alt t =>
      simp only [mistralImageStep, h]
      by_cases hp : strIsPre img.id t = true
      · rw [if_pos hp]
        simp [mistralBytelessStep, hp]
      · rw [if_neg hp]
        have hfalse : strIsPre img.id t = false := Bool.eq_false_iff.mpr hp
        simp only [mistralBytelessStep, List.any_cons, hfalse, Bool.false_or]

/-- When no listed image carries bytes, the whole image pass is the single
map by `mistralBytelessStep`. -/
theorem mistralImagePass_byteless (bs : String → Option String)
    (images : List MistralOCRImage) (h : ∀ img ∈ images, img.image_base64 = none)
    (toks : List MdToken) :
    mistralImagePass bs images toks = toks.map (mistralBytelessStep images) := by
  induction images generalizing toks with
  | nil =>
      have hid : mistralBytelessStep [] = id := funext mistralBytelessStep_nil
      simp [mistralImagePass, hid]
  | cons img imgs ih =>
      have h0 : img.image_base64 = none := h img (by simp)
      have hrest : ∀ i ∈ imgs, i.image_base64 = none := fun i hi => h i (by simp [hi])
      have hstep : mistralImagePass bs (img :: imgs) toks =
          mistralImagePass bs imgs (toks.map (mistralImageStep bs img)) := rfl
      rw [hstep, ih hrest, List.map_map]
      have hcomp : (mistralBytelessStep imgs) ∘ (mistralImageStep bs img) =
          mistralBytelessStep (img :: imgs) :=
        funext (fun tok => mistralImageStep_byteless bs img h0 imgs tok)
      rw [hcomp]

/-- Image tokens pass through one table-embedding step unchanged: a token
is an image in the output iff it is in the input. -/
theorem image_mem_mistralTableStep (i : ℕ) (tb : MistralOCRTable) (toks : List MdToken)
    (alt t : String) :
    MdToken.image alt t ∈ mistralTableStep i tb toks ↔ MdToken.image alt t ∈ toks := by
  unfold mistralTableStep
  split
  · exact Iff.rfl
  · split
    · exact Iff.rfl
    · constructor
      · intro hmem
        rcases List.mem_map.mp hmem with ⟨tok, htok, heq⟩
        cases tok with
        | text s => simp at heq
        | image a b =>
            have : MdToken.image a b = MdToken.image alt t := heq
            rwa [this] at htok
        | link lab tgt =>
            dsimp only at heq
            split at heq <;> simp at heq
      · intro hmem
        exact List.mem_map.mpr ⟨_, hmem, rfl⟩

/-- Text tokens survive one table-embedding step. -/
theorem text_mem_mistralTableStep (i : ℕ) (tb : MistralOCRTable) (toks : List MdToken)
    (s : String) (h : MdToken.text s ∈ toks) :
    MdToken.text s ∈ mistralTableStep i tb toks := by
  unfold mistralTableStep
  split
  · exact h
  · split
    · exact h
    · exact List.mem_map_of_mem _ h

/-- Image tokens pass through the whole table pass unchanged. -/
theorem image_mem_mistralTablePass (tables : List MistralOCRTable) (toks : List MdToken)
    (alt t : String) :
    MdToken.image alt t ∈ mistralTablePass tables toks ↔ MdToken.image alt t ∈ toks := by
  unfold mistralTablePass
  generalize tables.enum = l
  induction l generalizing toks with
  | nil => exact Iff.rfl
  | cons p ps ih =>
      have hfold : List.foldl (fun ts q => mistralTableStep q.1 q.2 ts) toks (p :: ps) =
          List.foldl (fun ts q => mistralTableStep q.1 q.2 ts)
            (mistralTableStep p.1 p.2 toks) ps := rfl
      rw [hfold]
      exact (ih (mistralTableStep p.1 p.2 toks)).trans
        (image_mem_mistralTableStep p.1 p.2 toks alt t)

/-- Text tokens survive the whole table pass. -/
theorem text_mem_mistralTablePass (tables : List MistralOCRTable) (toks : List MdToken)
    (s : String) (h : MdToken.text s ∈ toks) :
    MdToken.text s ∈ mistralTablePass tables toks := by
  unfold mistralTablePass
  generalize tables.enum = l
  induction l generalizing toks with
  | nil => exact h
  | cons p ps ih =>
      exact ih (mistralTableStep p.1 p.2 toks) (text_mem_mistralTableStep p.1 p.2 toks s h)

/-- Image tokens pass through the residual table pass unchanged. -/
theorem image_mem_mistralResidual (tables : List MistralOCRTable) (toks : List MdToken)
    (alt t : String) :
    MdToken.image alt t ∈ toks.map (mistralResidualStep tables) ↔
      MdToken.image alt t ∈ toks := by
  constructor
  · intro hmem
    rcases List.mem_map.mp hmem with ⟨tok, htok, heq⟩
    cases tok with
    | text s => simp [mistralResidualStep] at heq
    | image a b =>
        have : MdToken.image a b = MdToken.image alt t := heq
        rwa [this] at htok
    | link lab tgt =>
        simp only [mistralResidualStep] at heq
        split at heq
        · simp at heq
        · split at heq
          · split at heq <;> simp at heq
          · simp at heq
  · intro hmem
    have heq : mistralResidualStep tables (MdToken.image alt t) = MdToken.image alt t := rfl
    exact heq ▸ List.mem_map_of_mem _ hmem

/-- Text tokens survive the residual table pass. -/
theorem text_mem_mistralResidual (tables : List MistralOCRTable) (toks : List MdToken)
    (s : String) (h : MdToken.text s ∈ toks) :
    MdToken.text s ∈ toks.map (mistralResidualStep tables) := by
  have heq : mistralResidualStep tables (MdToken.text s) = MdToken.text s := rfl
  exact heq ▸ List.mem_map_of_mem _ h

/-- Claim C6: a markdown image reference whose asset has no byte payload
(and with no storage configured) is replaced by the neutral `[Image: alt]`
placeholder (an HTML comment in HTML output) by the asset inliners, and no
reference to such an asset survives; the processing functions are total, so
no input makes them throw.  For Mistral this covers every image listed by
the backend without base64 bytes; for Marker, every local (non-URL,
non-data) reference when the response carries no images. -/
theorem assetInliner_placeholder :
    (∀ (bs : String → Option String) (toks : List MdToken) (images : List MistralOCRImage)
        (tables : List MistralOCRTable),
      (∀ img ∈ images, img.image_base64 = none) →
      ((∀ alt t, MdToken.image alt t ∈ toks →
          (∃ img ∈ images, strIsPre img.id t = true) →
          MdToken.text ("[Image: " ++ alt ++ "]") ∈
            processMistralMarkdown bs toks images tables) ∧
       (∀ alt t, MdToken.image alt t ∈ processMistralMarkdown bs toks images tables →
          ∀ img ∈ images, strIsPre img.id t = false))) ∧
    (∀ (bs : String → Option String) (toks : List MdToken),
      (∀ alt src, MdToken.image alt src ∈ processMarkerMarkdown bs toks none →
        isRemoteTarget src = true) ∧
      (∀ alt src, MdToken.image alt src ∈ toks → isRemoteTarget src = false →
        MdToken.text (if alt = "" then "[Image]" else "[Image: " ++ alt ++ "]") ∈
          processMarkerMarkdown bs toks none)) ∧
    (∀ (bs : String → Option String) (toks : List HtmlToken),
      (∀ src, HtmlToken.imgTag src ∈ processMarkerHtml bs toks none →
        isRemoteTarget src = true) ∧
      (∀ src, HtmlToken.imgTag src ∈ toks → isRemoteTarget src = false →
        HtmlToken.piece ("<!-- Image removed: " ++ src ++ " -->") ∈
          processMarkerHtml bs toks none)) := by
  refine ⟨?_, ?_, ?_⟩
  · intro bs toks images tables hb
    constructor
    · intro alt t hmem hex
      unfold processMistralMarkdown
      apply text_mem_mistralResidual
      apply text_mem_mistralTablePass
      rw [mistralImagePass_byteless bs images hb]
      have hany : images.any (fun img => strIsPre img.id t) = true := by
        rcases hex with ⟨img, hin, hpre⟩
        exact List.any_eq_true.mpr ⟨img, hin, hpre⟩
      have hstep : mistralBytelessStep images (MdToken.image alt t) =
          MdToken.text ("[Image: " ++ alt ++ "]") := by
        simp [mistralBytelessStep, hany]
      exact hstep ▸ List.mem_map_of_mem _ hmem
    · intro alt t hmem img hin
      unfold processMistralMarkdown at hmem
      rw [image_mem_mistralResidual] at hmem
      rw [image_mem_mistralTablePass] at hmem
      rw [mistralImagePass_byteless bs images hb] at hmem
      rcases List.mem_map.mp hmem with ⟨tok, htok, heq⟩
      cases tok with
      | text s => simp [mistralBytelessStep] at heq
      | link lab tgt => simp [mistralBytelessStep] at heq
      | image a b =>
          simp only [mistralBytelessStep] at heq
          by_cases hany : images.any (fun i2 => strIsPre i2.id b) = true
          · rw [if_pos hany] at heq
            simp at heq
          · rw [if_neg hany] at heq
            injection heq with ha hb2
            subst hb2
            have hall := List.any_eq_false.mp (Bool.eq_false_iff.mpr hany)
            exact Bool.eq_false_iff.mpr (hall img hin)
  · intro bs toks
    constructor
    · intro alt src hmem
      have hproc : processMarkerMarkdown bs toks none = toks.map markerStripStep := rfl
      rw [hproc] at hmem
      rcases List.mem_map.mp hmem with ⟨tok, htok, heq⟩
      cases tok with
      | text s => simp [markerStripStep] at heq
      | link lab tgt => simp [markerStripStep] at heq
      | image a b =>
          simp only [markerStripStep] at heq
          by_cases hr : isRemoteTarget b = true
          · rw [if_pos hr] at heq
            injection heq with ha hb2
            subst hb2
            exact hr
          · rw [if_neg hr] at heq
            split at heq <;> simp at heq
    · intro alt src hmem hlocal
      have hproc : processMarkerMarkdown bs toks none = toks.map markerStripStep := rfl
      rw [hproc]
      have hstep : markerStripStep (MdToken.image alt src) =
          MdToken.text (if alt = "" then "[Image]" else "[Image: " ++ alt ++ "]") := by
        simp only [markerStripStep]
        rw [if_neg (by simp [hlocal])]
        by_cases ha : alt = ""
        · simp [ha]
        · simp [ha]
      exact hstep ▸ List.mem_map_of_mem _ hmem
  · intro bs toks
    constructor
    · intro src hmem
      have hproc : processMarkerHtml bs toks none = toks.map markerHtmlStripStep := rfl
      rw [hproc] at hmem
      rcases List.mem_map.mp hmem with ⟨tok, htok, heq⟩
      cases tok with
      | piece s => simp [markerHtmlStripStep] at heq
      | imgTag b =>
          simp only [markerHtmlStripStep] at heq
          by_cases hr : isRemoteTarget b = true
          · rw [if_pos hr] at heq
            injection heq with hb2
            subst hb2
            exact hr
          · rw [if_neg hr] at heq
            simp at heq
    · intro src hmem hlocal
      have hproc : processMarkerHtml bs toks none = toks.map markerHtmlStripStep := rfl
      rw [hproc]
      have hstep : markerHtmlStripStep (HtmlToken.imgTag src) =
          HtmlToken.piece ("<!-- Image removed: " ++ src ++ " -->") := by
        simp only [markerHtmlStripStep]
        rw [if_neg (by simp [hlocal])]
      exact hstep ▸ List.mem_map_of_mem _ hmem

/-- Witness for C6: a Mistral reference to the byteless asset `img-1`, a
Marker markdown reference to a local file, and a Marker HTML `img` tag with
a local source, each replaced by the corresponding placeholder. -/
theorem assetInliner_placeholder_witness :
    MdToken.text "[Image: photo]" ∈
      processMistralMarkdown (fun _ => none)
        [MdToken.image "photo" "img-1.jpeg"]
        [{ id := "img-1", image_base64 := none, top_left_x := none, top_left_y := none,
           bottom_right_x := none, bottom_right_y := none }] [] ∧
    MdToken.text "[Image: fig]" ∈
      processMarkerMarkdown (fun _ => none) [MdToken.image "fig" "page0_img0.png"] none ∧
    HtmlToken.piece "<!-- Image removed: local.png -->" ∈
      processMarkerHtml (fun _ => none) [HtmlToken.imgTag "local.png"] none := by
  refine ⟨?_, ?_, ?_⟩
  · exact (assetInliner_placeholder.1 (fun _ => none) _ _ [] (by decide)).1
      "photo" "img-1.jpeg" (by decide)
      ⟨{ id := "img-1", image_base64 := none, top_left_x := none, top_left_y := none,
         bottom_right_x := none, bottom_right_y := none }, by decide, by decide⟩
  · exact (assetInliner_placeholder.2.1 (fun _ => none) _).2 "fig" "page0_img0.png"
      (by decide) (by decide)
  · exact (assetInliner_placeholder.2.2 (fun _ => none) _).2 "local.png"
      (by decide) (by decide)

/-! ## Claim C1: helper lemmas -/

/-- An entry of `enumFrom` carries an element of the underlying list. -/
theorem snd_mem_of_mem_enumFrom {α : Type} :
    ∀ (l : List α) (n : ℕ) (p : ℕ × α), p ∈ l.enumFrom n → p.2 ∈ l := by
  intro l
  induction l with
  | nil => intro n p hp; simp [List.enumFrom] at hp
  | cons a as ih =>
      intro n p hp
      have hp1 : p ∈ (n, a) :: as.enumFrom (n + 1) := hp
      rcases List.mem_cons.mp hp1 with h | h
      · rw [h]
        exact List.mem_cons_self a as
      · exact List.mem_cons_of_mem a (ih (n + 1) p h)

/-- Id assignment by enumeration preserves the multiset of bboxes: every
output block's bbox is some input block's bbox. -/
theorem enum_map_update_bbox (f : ℕ × ParseBlock → ParseBlock)
    (hf : ∀ p, (f p).bbox = p.2.bbox) (bs : List ParseBlock) :
    ∀ pb ∈ bs.enum.map f, ∃ b ∈ bs, pb.bbox = b.bbox := by
  intro pb hpb
  rcases List.mem_map.mp hpb with ⟨p, hp, heq⟩
  exact ⟨p.2, snd_mem_of_mem_enumFrom bs 0 p hp, heq ▸ hf p⟩

/-- Every block of `assignIds pre bs` has the bbox of a block of `bs`. -/
theorem assignIds_bbox (pre : String) (bs : List ParseBlock) :
    ∀ pb ∈ assignIds pre bs, ∃ b ∈ bs, pb.bbox = b.bbox :=
  enum_map_update_bbox (fun p => { p.2 with id := pre ++ toString p.1 }) (fun _ => rfl) bs

/-- The `foldl min` yields either the seed or a list element. -/
theorem foldl_min_mem (l : List ℚ) : ∀ a : ℚ, l.foldl min a ∈ a :: l := by
  induction l with
  | nil => intro a; simp
  | cons b bs ih =>
      intro a
      have hstep : List.foldl min a (b :: bs) = List.foldl min (min a b) bs := rfl
      rw [hstep]
      rcases List.mem_cons.mp (ih (min a b)) with h1 | h1
      · rcases min_choice a b with hc | hc
        · rw [h1, hc]
          exact List.mem_cons_self _ _
        · rw [h1, hc]
          exact List.mem_cons_of_mem _ (List.mem_cons_self _ _)
      · exact List.mem_cons_of_mem _ (List.mem_cons_of_mem _ h1)

/-- The `foldl min` is a lower bound for the seed and all elements. -/
theorem foldl_min_le (l : List ℚ) : ∀ a x : ℚ, x ∈ a :: l → l.foldl min a ≤ x := by
  induction l with
  | nil =>
      intro a x hx
      have h : x = a := List.mem_singleton.mp hx
      rw [h]
      exact le_refl _
  | cons b bs ih =>
      intro a x hx
      have hstep : List.foldl min a (b :: bs) = List.foldl min (min a b) bs := rfl
      rw [hstep]
      have hseed : List.foldl min (min a b) bs ≤ min a b :=
        ih (min a b) (min a b) (List.mem_cons_self _ _)
      rcases List.mem_cons.mp hx with h1 | hx2
      · rw [h1]
        exact hseed.trans (min_le_left _ _)
      · rcases List.mem_cons.mp hx2 with h2 | hx3
        · rw [h2]
          exact hseed.trans (min_le_right _ _)
        · exact ih (min a b) x (List.mem_cons_of_mem _ hx3)

/-- The `foldl max` yields either the seed or a list element. -/
theorem foldl_max_mem (l : List ℚ) : ∀ a : ℚ, l.foldl max a ∈ a :: l := by
  induction l with
  | nil => intro a; simp
  | cons b bs ih =>
      intro a
      have hstep : List.foldl max a (b :: bs) = List.foldl max (max a b) bs := rfl
      rw [hstep]
      rcases List.mem_cons.mp (ih (max a b)) with h1 | h1
      · rcases max_choice a b with hc | hc
        · rw [h1, hc]
          exact List.mem_cons_self _ _
        · rw [h1, hc]
          exact List.mem_cons_of_mem _ (List.mem_cons_self _ _)
      · exact List.mem_cons_of_mem _ (List.mem_cons_of_mem _ h1)

/-- The `foldl max` is an upper bound for the seed and all elements. -/
theorem le_foldl_max (l : List ℚ) : ∀ a x : ℚ, x ∈ a :: l → x ≤ l.foldl max a := by
  induction l with
  | nil =>
      intro a x hx
      have h : x = a := List.mem_singleton.mp hx
      rw [h]
      exact le_refl _
  | cons b bs ih =>
      intro a x hx
      have hstep : List.foldl max a (b :: bs) = List.foldl max (max a b) bs := rfl
      rw [hstep]
      have hseed : max a b ≤ List.foldl max (max a b) bs :=
        ih (max a b) (max a b) (List.mem_cons_self _ _)
      rcases List.mem_cons.mp hx with h1 | hx2
      · rw [h1]
        exact (le_max_left _ _).trans hseed
      · rcases List.mem_cons.mp hx2 with h2 | hx3
        · rw [h2]
          exact (le_max_right _ _).trans hseed
        · exact ih (max a b) x (List.mem_cons_of_mem _ hx3)

/-- The `listMin` of a non-empty list is one of its elements. -/
theorem listMin_mem (l : List ℚ) (h : l ≠ []) : listMin l ∈ l := by
  cases l with
  | nil => exact absurd rfl h
  | cons a as => exact foldl_min_mem as a

/-- The `listMin` is a lower bound. -/
theorem listMin_le (l : List ℚ) (x : ℚ) (hx : x ∈ l) : listMin l ≤ x := by
  cases l with
  | nil => simp at hx
  | cons a as => exact foldl_min_le as a x hx

/-- The `listMax` of a non-empty list is one of its elements. -/
theorem listMax_mem (l : List ℚ) (h : l ≠ []) : listMax l ∈ l := by
  cases l with
  | nil => exact absurd rfl h
  | cons a as => exact foldl_max_mem as a

/-- The `listMax` is an upper bound. -/
theorem le_listMax (l : List ℚ) (x : ℚ) (hx : x ∈ l) : x ≤ listMax l := by
  cases l with
  | nil => simp at hx
  | cons a as => exact le_foldl_max as a x hx

/-- A pixel rectangle within a positive page, scaled componentwise
(`x/W, y/H, w/W, h/H`), satisfies the exact unit-square invariant. -/
theorem unitBox_of_pixelWH (W H x y w h : ℚ) (hW : 0 < W) (hH : 0 < H)
    (hx0 : 0 ≤ x) (hy0 : 0 ≤ y) (hw0 : 0 ≤ w) (hh0 : 0 ≤ h)
    (hxw : x + w ≤ W) (hyh : y + h ≤ H) :
    unitBox { x := x / W, y := y / H, w := w / W, h := h / H } := by
  unfold unitBox unitBoxEps
  have hxW : x ≤ W := by linarith
  have hyH : y ≤ H := by linarith
  refine ⟨div_nonneg hx0 hW.le, ?_, div_nonneg hy0 hH.le, ?_, ?_, ?_⟩
  · rw [add_zero]
    exact (div_le_one hW).mpr hxW
  · rw [add_zero]
    exact (div_le_one hH).mpr hyH
  · rw [add_zero, div_add_div_same]
    exact (div_le_one hW).mpr hxw
  · rw [add_zero, div_add_div_same]
    exact (div_le_one hH).mpr hyh

/-- A corner-form pixel rectangle (`x ≤ x2 ≤ W`, `y ≤ y2 ≤ H`), scaled to
`{x/W, y/H, (x2-x)/W, (y2-y)/H}`, satisfies the exact invariant. -/
theorem unitBox_of_corners (W H x y x2 y2 : ℚ) (hW : 0 < W) (hH : 0 < H)
    (hx0 : 0 ≤ x) (hxx : x ≤ x2) (hx2 : x2 ≤ W)
    (hy0 : 0 ≤ y) (hyy : y ≤ y2) (hy2 : y2 ≤ H) :
    unitBox { x := x / W, y := y / H, w := (x2 - x) / W, h := (y2 - y) / H } := by
  have h1 := unitBox_of_pixelWH W H x y (x2 - x) (y2 - y) hW hH hx0 hy0
    (by linarith) (by linarith) (by linarith) (by linarith)
  exact h1

/-- Every block a LlamaParse page contributes has a unit-square bbox,
provided the page's raw data is in range. -/
theorem llamaPageBlocks_unitBox (page : LlamaParseJsonPage) (hok : llamaPageOK page) :
    ∀ b ∈ llamaPageBlocks page, unitBoxOpt b.bbox := by
  obtain ⟨hW, hH, hlayout, hitems⟩ := hok
  intro b hb
  unfold llamaPageBlocks at hb
  rw [List.mem_append] at hb
  rcases hb with hb | hb
  · cases hcase : page.layout with
    | none => rw [hcase] at hb; simp at hb
    | some l =>
        rw [hcase] at hb
        dsimp only at hb
        by_cases hlen : l.length > 0
        · rw [if_pos hlen] at hb
          rcases List.mem_map.mp hb with ⟨item, hitem, heq⟩
          have hmem : item ∈ l := List.mem_of_mem_filter hitem
          have hunit : unitBox item.bbox := by
            have := hlayout item
            rw [hcase] at this
            exact this hmem
          rw [← heq]
          exact hunit
        · rw [if_neg hlen] at hb
          simp at hb
  · cases hcase : page.items with
    | none => rw [hcase] at hb; simp at hb
    | some its =>
        rw [hcase] at hb
        dsimp only at hb
        by_cases hlen : its.length > 0
        · rw [if_pos hlen] at hb
          rcases List.mem_map.mp hb with ⟨item, hitem, heq⟩
          have hok : llamaItemOK (jsOrOne page.width) (jsOrOne page.height) item := by
            have := hitems item
            rw [hcase] at this
            exact this hitem
          rw [← heq]
          cases hbb : item.bBox with
          | none =>
              simp only [hbb]
              trivial
          | some bb =>
              simp only [hbb]
              obtain ⟨hx0, hy0, hw0, hh0, hxw, hyh⟩ := hok bb hbb
              exact unitBox_of_pixelWH _ _ _ _ _ _ hW hH hx0 hy0 hw0 hh0 hxw hyh
        · rw [if_neg hlen] at hb
          simp at hb

/-- Claim C1, LlamaParse part: in-range raw results normalize to blocks
with unit-square bboxes. -/
theorem normalizeLlamaParseBlocks_unitBox (jr : LlamaParseJsonResult)
    (hraw : llamaRawInRange jr) :
    ∀ b ∈ normalizeLlamaParseBlocks (some jr), unitBoxOpt b.bbox := by
  intro b hb
  unfold normalizeLlamaParseBlocks at hb
  rcases assignIds_bbox _ _ b hb with ⟨b0, hb0, hbbox⟩
  rcases List.mem_flatten.mp hb0 with ⟨pageBlocks, hpb, hb1⟩
  rcases List.mem_map.mp hpb with ⟨page, hpage, heq⟩
  rw [hbbox]
  exact llamaPageBlocks_unitBox page (hraw page hpage) b0 (heq ▸ hb1)

/-- Every block a Mistral page contributes has a unit-square bbox,
provided the page's raw data is in range. -/
theorem mistralPageBlocks_unitBox (page : MistralOCRPage) (hok : mistralPageOK page) :
    ∀ b ∈ mistralPageBlocks page, unitBoxOpt b.bbox := by
  intro b hb
  unfold mistralPageBlocks at hb
  rw [List.mem_append, List.mem_append] at hb
  rcases hb with (hb | hb) | hb
  · by_cases hmd : page.markdown ≠ ""
    · rw [if_pos hmd] at hb
      rcases List.mem_singleton.mp hb with rfl
      trivial
    · rw [if_neg hmd] at hb
      simp at hb
  · cases hcase : page.images with
    | none => rw [hcase] at hb; simp at hb
    | some imgs =>
        rw [hcase] at hb
        dsimp only at hb
        by_cases hlen : imgs.length > 0
        · rw [if_pos hlen] at hb
          rcases List.mem_map.mp hb with ⟨img, himg, heq⟩
          rw [← heq]
          show unitBoxOpt (mistralImageBbox page.dimensions img)
          unfold mistralImageBbox
          cases hdim : page.dimensions with
          | none => trivial
          | some d =>
              obtain ⟨hWpos, hHpos, himgs, _⟩ := hok d hdim
              cases htlx : img.top_left_x with
              | none => trivial
              | some tlx =>
                cases htly : img.top_left_y with
                | none => trivial
                | some tly =>
                  cases hbrx : img.bottom_right_x with
                  | none => trivial
                  | some brx =>
                    cases hbry : img.bottom_right_y with
                    | none => trivial
                    | some bry =>
                        have hc : img ∈ imgs := himg
                        have hcorners := himgs img (by rw [hcase]; exact hc)
                        obtain ⟨hx0, hxx, hx2, hy0, hyy, hy2⟩ :=
                          hcorners tlx tly brx bry htlx htly hbrx hbry
                        exact unitBox_of_corners _ _ _ _ _ _ hWpos hHpos hx0 hxx hx2 hy0 hyy hy2
        · rw [if_neg hlen] at hb
          simp at hb
  · cases hcase : page.tables with
    | none => rw [hcase] at hb; simp at hb
    | some tbls =>
        rw [hcase] at hb
        dsimp only at hb
        by_cases hlen : tbls.length > 0
        · rw [if_pos hlen] at hb
          rcases List.mem_map.mp hb with ⟨t, ht, heq⟩
          rw [← heq]
          show unitBoxOpt (mistralTableBbox page.dimensions t)
          unfold mistralTableBbox
          cases hdim : page.dimensions with
          | none => trivial
          | some d =>
              obtain ⟨hWpos, hHpos, _, htbls⟩ := hok d hdim
              cases htlx : t.top_left_x with
              | none => trivial
              | some tlx =>
                cases htly : t.top_left_y with
                | none => trivial
                | some tly =>
                  cases hbrx : t.bottom_right_x with
                  | none => trivial
                  | some brx =>
                    cases hbry : t.bottom_right_y with
                    | none => trivial
                    | some bry =>
                        have hcorners := htbls t (by rw [hcase]; exact ht)
                        obtain ⟨hx0, hxx, hx2, hy0, hyy, hy2⟩ :=
                          hcorners tlx tly brx bry htlx htly hbrx hbry
                        exact unitBox_of_corners _ _ _ _ _ _ hWpos hHpos hx0 hxx hx2 hy0 hyy hy2
        · rw [if_neg hlen] at hb
          simp at hb

/-- Claim C1, Mistral part: in-range raw responses normalize to blocks
with unit-square bboxes. -/
theorem normalizeMistralBlocks_unitBox (resp : MistralOCRResponse)
    (hraw : mistralRawInRange resp) :
    ∀ b ∈ normalizeMistralBlocks resp, unitBoxOpt b.bbox := by
  intro b hb
  unfold normalizeMistralBlocks at hb
  rcases enum_map_update_bbox
      (fun p => { p.2 with id := mistralIdOfType p.2.type ++ toString p.1 })
      (fun _ => rfl) _ b hb with ⟨b0, hb0, hbbox⟩
  rcases List.mem_flatten.mp hb0 with ⟨pageBlocks, hpb, hb1⟩
  rcases List.mem_map.mp hpb with ⟨page, hpage, heq⟩
  rw [hbbox]
  exact mistralPageBlocks_unitBox page (hraw page hpage) b0 (heq ▸ hb1)

/-- Membership in the flattening of a block list. -/
theorem mem_markerBlockListToBlocks (W H : ℚ) (l : List DatalabMarkerBlock) (pb : ParseBlock) :
    pb ∈ markerBlockListToBlocks W H l ↔ ∃ b ∈ l, pb ∈ markerBlockToBlocks W H b := by
  induction l with
  | nil => simp [markerBlockListToBlocks]
  | cons b bs ih =>
      have hstep : markerBlockListToBlocks W H (b :: bs) =
          markerBlockToBlocks W H b ++ markerBlockListToBlocks W H bs := rfl
      rw [hstep, List.mem_append, ih]
      simp

/-- Membership in the descendants of a block list. -/
theorem mem_markerDescendantsOfList (l : List DatalabMarkerBlock) (c : DatalabMarkerBlock) :
    c ∈ markerDescendantsOfList l ↔ ∃ b ∈ l, c ∈ markerDescendants b := by
  induction l with
  | nil => simp [markerDescendantsOfList]
  | cons b bs ih =>
      have hstep : markerDescendantsOfList (b :: bs) =
          markerDescendants b ++ markerDescendantsOfList bs := rfl
      rw [hstep, List.mem_append, ih]
      simp

/-- Every block emitted by the depth-first flattening is the self block of
some descendant of the root. -/
theorem marker_flatten_from_self (W H : ℚ) :
    ∀ (n : ℕ) (b : DatalabMarkerBlock), sizeOf b ≤ n →
    ∀ pb ∈ markerBlockToBlocks W H b, ∃ c ∈ markerDescendants b, pb ∈ markerSelfBlocks W H c := by
  intro n
  induction n with
  | zero =>
      intro b hsz
      cases b with
      | mk idf bt txt htm poly bx pidx ch =>
          simp only [DatalabMarkerBlock.mk.sizeOf_spec] at hsz
          omega
  | succ n ih =>
      intro b hsz pb hpb
      cases b with
      | mk idf bt txt htm poly bx pidx ch =>
          have hsplit : markerBlockToBlocks W H (.mk idf bt txt htm poly bx pidx ch) =
              markerSelfBlocks W H (.mk idf bt txt htm poly bx pidx ch) ++
                markerChildrenToBlocks W H ch := rfl
          rw [hsplit, List.mem_append] at hpb
          have hdesc : markerDescendants (.mk idf bt txt htm poly bx pidx ch) =
              .mk idf bt txt htm poly bx pidx ch :: markerDescendantsOfChildren ch := rfl
          rcases hpb with h | h
          · exact ⟨_, by rw [hdesc]; exact List.mem_cons_self _ _, h⟩
          · cases ch with
            | none => simp [markerChildrenToBlocks] at h
            | some l =>
                have hl : pb ∈ markerBlockListToBlocks W H l := h
                rcases (mem_markerBlockListToBlocks W H l pb).mp hl with ⟨b1, hb1, hpb1⟩
                have hsz1 : sizeOf b1 ≤ n := by
                  have h1 := List.sizeOf_lt_of_mem hb1
                  simp only [DatalabMarkerBlock.mk.sizeOf_spec, Option.some.sizeOf_spec] at hsz
                  omega
                rcases ih b1 hsz1 pb hpb1 with ⟨c, hc, hself⟩
                refine ⟨c, ?_, hself⟩
                rw [hdesc]
                refine List.mem_cons_of_mem _ ?_
                have hch : markerDescendantsOfChildren (some l) = markerDescendantsOfList l := rfl
                rw [hch]
                exact (mem_markerDescendantsOfList l c).mpr ⟨b1, hb1, hc⟩

/-- The self block of a locally in-range Marker block has a unit-square
bbox. -/
theorem markerSelfBlocks_unitBox (W H : ℚ) (hW : 0 < W) (hH : 0 < H)
    (b : DatalabMarkerBlock) (hok : markerBlockLocalOK W H b) :
    ∀ pb ∈ markerSelfBlocks W H b, unitBoxOpt pb.bbox := by
  cases b with
  | mk idf bt txt htm poly bx pidx ch =>
      intro pb hpb
      obtain ⟨hpoly, hbox⟩ := hok
      unfold markerSelfBlocks at hpb
      dsimp only at hpb
      by_cases hbt : bt ≠ ""
      · rw [if_pos hbt] at hpb
        rcases List.mem_singleton.mp hpb with rfl
        show unitBoxOpt (markerBlockBbox W H poly bx)
        have harray : unitBoxOpt (markerArrayBbox W H bx) := by
          cases hbx : bx with
          | none => trivial
          | some q =>
              have hq := hbox q (by
                show DatalabMarkerBlock.bboxField (.mk idf bt txt htm poly bx pidx ch) = some q
                simp [DatalabMarkerBlock.bboxField, hbx])
              obtain ⟨hx0, hxx, hx2, hy0, hyy, hy2⟩ := hq
              exact unitBox_of_corners _ _ _ _ _ _ hW hH hx0 hxx hx2 hy0 hyy hy2
        unfold markerBlockBbox
        cases hpl : poly with
        | none => exact harray
        | some pts =>
            dsimp only
            by_cases hlen : pts.length ≥ 4
            · rw [if_pos hlen]
              have hptsOK : ∀ p ∈ pts, 0 ≤ p.1 ∧ p.1 ≤ W ∧ 0 ≤ p.2 ∧ p.2 ≤ H := by
                intro p hp
                exact hpoly pts (by
                  show DatalabMarkerBlock.polygonField (.mk idf bt txt htm poly bx pidx ch) =
                    some pts
                  simp [DatalabMarkerBlock.polygonField, hpl]) p hp
              have hne : pts ≠ [] := by
                intro hcontra
                rw [hcontra] at hlen
                simp at hlen
              have hxne : pts.map Prod.fst ≠ [] := by
                simpa using hne
              have hyne : pts.map Prod.snd ≠ [] := by
                simpa using hne
              have hxlow : 0 ≤ listMin (pts.map Prod.fst) := by
                rcases List.mem_map.mp (listMin_mem _ hxne) with ⟨p, hp, hpe⟩
                rw [← hpe]
                exact (hptsOK p hp).1
              have hxhigh : listMax (pts.map Prod.fst) ≤ W := by
                rcases List.mem_map.mp (listMax_mem _ hxne) with ⟨p, hp, hpe⟩
                rw [← hpe]
                exact (hptsOK p hp).2.1
              have hxmm : listMin (pts.map Prod.fst) ≤ listMax (pts.map Prod.fst) :=
                (listMin_le _ _ (listMax_mem _ hxne))
              have hylow : 0 ≤ listMin (pts.map Prod.snd) := by
                rcases List.mem_map.mp (listMin_mem _ hyne) with ⟨p, hp, hpe⟩
                rw [← hpe]
                exact (hptsOK p hp).2.2.1
              have hyhigh : listMax (pts.map Prod.snd) ≤ H := by
                rcases List.mem_map.mp (listMax_mem _ hyne) with ⟨p, hp, hpe⟩
                rw [← hpe]
                exact (hptsOK p hp).2.2.2
              have hymm : listMin (pts.map Prod.snd) ≤ listMax (pts.map Prod.snd) :=
                (listMin_le _ _ (listMax_mem _ hyne))
              show unitBox (markerPolyBbox W H pts)
              unfold markerPolyBbox
              exact unitBox_of_corners _ _ _ _ _ _ hW hH hxlow hxmm hxhigh hylow hymm hyhigh
            · rw [if_neg hlen]
              exact harray
      · rw [if_neg hbt] at hpb
        simp at hpb

/-- Claim C1, Marker part: in-range raw JSON payloads normalize to blocks
with unit-square bboxes. -/
theorem normalizeMarkerBlocks_unitBox (jd : Option DatalabMarkerJson) (W H : ℚ)
    (hW : 0 < W) (hH : 0 < H) (hraw : markerRawInRange W H jd) :
    ∀ b ∈ normalizeMarkerBlocks jd W H, unitBoxOpt b.bbox := by
  intro b hb
  have hmain : ∀ bs : List DatalabMarkerBlock,
      (∀ b0 ∈ bs, ∀ c ∈ markerDescendants b0, markerBlockLocalOK W H c) →
      ∀ pb ∈ assignIds "marker-" (markerBlockListToBlocks W H bs), unitBoxOpt pb.bbox := by
    intro bs hok pb hpb
    rcases assignIds_bbox _ _ pb hpb with ⟨b0, hb0, hbbox⟩
    rcases (mem_markerBlockListToBlocks W H bs b0).mp hb0 with ⟨blk, hblk, hflat⟩
    rcases marker_flatten_from_self W H (sizeOf blk) blk (le_refl _) b0 hflat with ⟨c, hc, hself⟩
    rw [hbbox]
    exact markerSelfBlocks_unitBox W H hW hH c (hok blk hblk c hc) b0 hself
  unfold normalizeMarkerBlocks at hb
  unfold markerRawInRange markerJsonTopBlocks at hraw
  cases jd with
  | none => simp at hb
  | some j =>
      cases j with
      | arr bs => exact hmain bs hraw b hb
      | obj ch bt bx txt htm poly pidx =>
          cases ch with
          | some cs => exact hmain cs hraw b hb
          | none =>
              dsimp only at hb hraw
              cases htr : truthyStr bt with
              | none =>
                  rw [htr] at hb
                  simp at hb
              | some bts =>
                  rw [htr] at hb
                  rw [htr] at hraw
                  dsimp only at hb hraw
                  have hsingle : markerBlockToBlocks W H
                      (.mk none bts txt htm poly bx pidx none) =
                      markerBlockListToBlocks W H [.mk none bts txt htm poly bx pidx none] := by
                    have h1 : markerBlockListToBlocks W H
                        [DatalabMarkerBlock.mk none bts txt htm poly bx pidx none] =
                        markerBlockToBlocks W H (.mk none bts txt htm poly bx pidx none) ++ [] :=
                      rfl
                    rw [h1, List.append_nil]
                  rw [hsingle] at hb
                  exact hmain [.mk none bts txt htm poly bx pidx none] hraw b hb

/-- Claim C1 (amended): every bbox emitted by the three block normalizers
satisfies the exact unit-square invariant provided the raw backend data is
in range for its source convention — LlamaParse layout bboxes already unit
fractions and item bboxes within positive page dimensions, Mistral corner
sets ordered and within positive page dimensions, Marker polygons and bbox
arrays within positive page dimensions.  (As originally stated — for every
raw backend result — the invariant fails: LlamaParse layout bboxes are
passed through unchanged, see the counterexample.) -/
theorem blockNormalizers_unitBox :
    (∀ jr : LlamaParseJsonResult, llamaRawInRange jr →
      ∀ b ∈ normalizeLlamaParseBlocks (some jr), unitBoxOpt b.bbox) ∧
    (∀ resp : MistralOCRResponse, mistralRawInRange resp →
      ∀ b ∈ normalizeMistralBlocks resp, unitBoxOpt b.bbox) ∧
    (∀ (jd : Option DatalabMarkerJson) (W H : ℚ), 0 < W → 0 < H →
      markerRawInRange W H jd → ∀ b ∈ normalizeMarkerBlocks jd W H, unitBoxOpt b.bbox) :=
  ⟨normalizeLlamaParseBlocks_unitBox, normalizeMistralBlocks_unitBox,
    normalizeMarkerBlocks_unitBox⟩

/-- Counterexample for C1 as stated: a raw LlamaParse result whose layout
item reports the bbox `{x:10, y:0, w:0, h:0}` is normalized to a block
carrying exactly that bbox (layout bboxes are passed through unchanged), and
that bbox violates the unit-square invariant even with slack `ε = 1/100`. -/
theorem blockNormalizers_unitBox_counterexample :
    (normalizeLlamaParseBlocks (some exLlamaOutOfRange)).map (fun b => b.bbox) =
      [some { x := 10, y := 0, w := 0, h := 0 }] ∧
    ¬ unitBoxEps { x := 10, y := 0, w := 0, h := 0 } (1/100) := by
  constructor
  · simp [normalizeLlamaParseBlocks, exLlamaOutOfRange, llamaPageBlocks, assignIds]
  · unfold unitBoxEps
    norm_num

/-- Witness for the amended C1: the three in-range example inputs yield
unit-square bboxes; in particular the spec's round-trip example
`{x:100,y:50,w:200,h:100}` against a 1000×500 page normalizes to
`{x:0.1,y:0.1,w:0.2,h:0.2}`, which is in the unit square. -/
theorem blockNormalizers_unitBox_witness :
    unitBox { x := 1/10, y := 1/10, w := 1/5, h := 1/5 } ∧
    unitBox { x := 1/10, y := 1/10, w := 1/5, h := 1/5 } ∧
    unitBox { x := 0, y := 0, w := 1/2, h := 1/2 } := by
  refine ⟨?_, ?_, ?_⟩
  · have hrange : llamaRawInRange exLlamaInRange := by
      intro page hpage
      simp only [exLlamaInRange, List.mem_singleton] at hpage
      subst hpage
      refine ⟨by norm_num [jsOrOne], by norm_num [jsOrOne], ?_, ?_⟩
      · intro li hli
        simp at hli
      · intro it hit
        simp only [Option.getD] at hit
        rcases List.mem_singleton.mp hit with rfl
        intro bb hbb
        cases hbb
        norm_num [jsOrOne]
    have happ := blockNormalizers_unitBox.1 exLlamaInRange hrange
      { id := "llama-0", type := .text, content := "hello",
        bbox := some { x := 1/10, y := 1/10, w := 1/5, h := 1/5 },
        confidence := none, pageIndex := 0 }
    have hmem : (⟨"llama-0", .text, "hello", some ⟨1/10, 1/10, 1/5, 1/5⟩, none, 0⟩ :
        ParseBlock) ∈ normalizeLlamaParseBlocks (some exLlamaInRange) := by
      simp [normalizeLlamaParseBlocks, exLlamaInRange, llamaPageBlocks, assignIds,
        jsOrOne, jsOrElse, mapLlamaParseType, strToLower]
      norm_num
      decide
    exact happ hmem
  · have hrange : mistralRawInRange exMistralInRange := by
      intro page hpage
      simp only [exMistralInRange, List.mem_singleton] at hpage
      subst hpage
      intro d hd
      cases hd
      refine ⟨by norm_num, by norm_num, ?_, ?_⟩
      · intro img himg
        simp only [Option.getD] at himg
        rcases List.mem_singleton.mp himg with rfl
        intro a b c dd ha hb hc hdd
        cases ha
        cases hb
        cases hc
        cases hdd
        norm_num
      · intro t ht
        simp at ht
    have happ := blockNormalizers_unitBox.2.1 exMistralInRange hrange
      { id := "mistral-img-0", type := .figure, content := "img-0",
        bbox := some { x := 1/10, y := 1/10, w := 1/5, h := 1/5 },
        confidence := none, pageIndex := 0 }
    have hmem : (⟨"mistral-img-0", .figure, "img-0", some ⟨1/10, 1/10, 1/5, 1/5⟩, none, 0⟩ :
        ParseBlock) ∈ normalizeMistralBlocks exMistralInRange := by
      simp [normalizeMistralBlocks, exMistralInRange, mistralPageBlocks, mistralImageBbox,
        mistralIdOfType]
      norm_num
      decide
    exact happ hmem
  · have hrange : markerRawInRange 100 100 exMarkerInRange := by
      intro b hb
      simp only [exMarkerInRange, markerJsonTopBlocks, List.mem_singleton] at hb
      subst hb
      intro c hc
      have hdesc : markerDescendants
          (.mk none "Text" (some "hi") none none (some (0, 0, 50, 50)) none none) =
          [.mk none "Text" (some "hi") none none (some (0, 0, 50, 50)) none none] := rfl
      rw [hdesc] at hc
      rcases List.mem_singleton.mp hc with rfl
      constructor
      · intro pts hpts
        simp [DatalabMarkerBlock.polygonField] at hpts
      · intro q hq
        simp only [DatalabMarkerBlock.bboxField, Option.some.injEq] at hq
        subst hq
        norm_num
    have happ := blockNormalizers_unitBox.2.2 exMarkerInRange 100 100
      (by norm_num) (by norm_num) hrange
      { id := "marker-0", type := .text, content := "hi",
        bbox := some { x := 0, y := 0, w := 1/2, h := 1/2 },
        confidence := none, pageIndex := 0 }
    have hmem : (⟨"marker-0", .text, "hi", some ⟨0, 0, 1/2, 1/2⟩, none, 0⟩ :
        ParseBlock) ∈ normalizeMarkerBlocks exMarkerInRange 100 100 := by
      have hflat : normalizeMarkerBlocks exMarkerInRange 100 100 =
          assignIds "marker-" (markerBlockToBlocks 100 100
            (.mk none "Text" (some "hi") none none (some (0, 0, 50, 50)) none none) ++ []) :=
        rfl
      rw [hflat]
      have hself : markerBlockToBlocks 100 100
          (.mk none "Text" (some "hi") none none (some (0, 0, 50, 50)) none none) =
          markerSelfBlocks 100 100
            (.mk none "Text" (some "hi") none none (some (0, 0, 50, 50)) none none) ++ [] :=
        rfl
      rw [hself]
      simp [markerSelfBlocks, markerBlockBbox, markerArrayBbox, mapMarkerBlockType,
        jsOrElse, assignIds]
      norm_num
      decide
    exact happ hmem

/-! ## Claim C10: page dimensions used by the Marker normalization -/

/-- Claim C10 (amended): the page dimensions used by `parseDatalabMarker`
default to 1 whenever `metadata.pages[0]` reports them as zero (and are
then always nonzero on that path); when neither metadata nor a JSON payload
is present the degraded 1×1 fallback is used; and at the 1×1 fallback the
pixel coordinates pass through the normalization divided by 1.  (As
originally claimed — that the normalization can never divide by zero — the
property fails: dimensions derived from the JSON object's page-level bbox
are used as-is and are zero for a degenerate bbox, see the
counterexample.) -/
theorem computeMarkerPageDims_defaults :
    (∀ (r : DatalabMarkerResultResponse) (m : MarkerMetadata) (p : MarkerPageMeta)
        (ps : List MarkerPageMeta),
      r.metadata = some m → m.pages = some (p :: ps) →
      markerPageDimsStage1 r = (jsOrOne (some p.width), jsOrOne (some p.height)) ∧
      jsOrOne (some p.width) ≠ 0 ∧ jsOrOne (some p.height) ≠ 0) ∧
    (∀ r : DatalabMarkerResultResponse, r.metadata = none → r.json = none →
      computeMarkerPageDims r = (1, 1)) ∧
    (∀ (x1 y1 x2 y2 : ℚ) (bt : String), bt ≠ "" →
      (normalizeMarkerBlocks
          (some (.arr [.mk none bt none none none (some (x1, y1, x2, y2)) none none]))
          1 1).map (fun b => b.bbox) =
        [some { x := x1, y := y1, w := x2 - x1, h := y2 - y1 }]) := by
  refine ⟨?_, ?_, ?_⟩
  · intro r m p ps hmeta hpages
    refine ⟨?_, ?_, ?_⟩
    · simp only [markerPageDimsStage1, hmeta, hpages]
    · simp only [jsOrOne]
      by_cases hw : p.width = 0
      · rw [if_pos hw]
        norm_num
      · rw [if_neg hw]
        exact hw
    · simp only [jsOrOne]
      by_cases hh : p.height = 0
      · rw [if_pos hh]
        norm_num
      · rw [if_neg hh]
        exact hh
  · intro r hmeta hjson
    unfold computeMarkerPageDims markerPageDimsStage1
    rw [hmeta, hjson]
    norm_num
  · intro x1 y1 x2 y2 bt hbt
    have hflat : normalizeMarkerBlocks
        (some (.arr [.mk none bt none none none (some (x1, y1, x2, y2)) none none])) 1 1 =
        assignIds "marker-"
          (markerSelfBlocks 1 1 (.mk none bt none none none (some (x1, y1, x2, y2)) none none)
            ++ [] ++ []) := rfl
    rw [hflat]
    unfold markerSelfBlocks
    dsimp only
    rw [if_pos hbt]
    simp [assignIds, markerBlockBbox, markerArrayBbox]

/-- Counterexample for C10 as stated: with absent metadata and a JSON
object whose page-level bbox is the degenerate `[0,0,0,0]`, the dimensions
used for normalization are `(0, 0)` — they are not defaulted to 1, and the
pixel bbox `[10,20,110,220]` of the child block is divided by zero
(collapsing, under exact rational arithmetic with `x/0 = 0`, to the zero
box). -/
theorem computeMarkerPageDims_counterexample :
    computeMarkerPageDims exMarkerDegenerate = (0, 0) ∧
    (normalizeMarkerBlocks exMarkerDegenerate.json 0 0).map (fun b => b.bbox) =
      [some { x := 0, y := 0, w := 0, h := 0 }] := by
  constructor
  · unfold computeMarkerPageDims markerPageDimsStage1 exMarkerDegenerate
    norm_num
  · have hflat : normalizeMarkerBlocks exMarkerDegenerate.json 0 0 =
        assignIds "marker-"
          (markerSelfBlocks 0 0
              (.mk none "Text" (some "hello") none none (some (10, 20, 110, 220)) none none)
            ++ [] ++ []) := rfl
    rw [hflat]
    simp [markerSelfBlocks, assignIds, markerBlockBbox, markerArrayBbox]

/-- Witness for the amended C10: a metadata page of width 0 defaults to
width 1 (height 600 kept); a result with no dimension source at all uses
the 1×1 fallback; and at 1×1 a `[5,6,7,9]` bbox passes through as
`{x:5, y:6, w:2, h:3}`. -/
theorem computeMarkerPageDims_defaults_witness :
    (markerPageDimsStage1 exMarkerMetaZero = (jsOrOne (some 0), jsOrOne (some 600)) ∧
      jsOrOne (some 0) ≠ 0 ∧ jsOrOne (some 600) ≠ 0) ∧
    computeMarkerPageDims exMarkerNoDims = (1, 1) ∧
    (normalizeMarkerBlocks
        (some (.arr [.mk none "Text" none none none (some (5, 6, 7, 9)) none none]))
        1 1).map (fun b => b.bbox) =
      [some { x := 5, y := 6, w := 7 - 5, h := 9 - 6 }] :=
  ⟨computeMarkerPageDims_defaults.1 exMarkerMetaZero _ _ _ rfl rfl,
   computeMarkerPageDims_defaults.2.1 exMarkerNoDims rfl rfl,
   computeMarkerPageDims_defaults.2.2 5 6 7 9 "Text" (by decide)⟩
